import Mathlib

/-!
Verification development for the gofiler repository (a Go driver for an
external OCR-profiling subprocess).  The Go sources are embedded shallowly:

* strings are `List Char` (Go strings are sequences of runes here);
* Go `int` is `Int`; out-of-range `strconv.Atoi` behaviour is modelled by
  clamping at `2^63 - 1` with an error flag, exactly as Go's `ParseInt`
  reports `ErrRange` together with the clamped value;
* fallible functions return `Option` (`none` models a non-nil Go `error`);
* the two hand-written regular expressions of the candidate/pattern codec
  are embedded by a backtracking template matcher (`matchT`/`searchT`)
  with Go's documented submatch semantics: leftmost starting position,
  and among those the capture assignment a preference-order backtracking
  search finds first (greedy `.*` and `\d*`, `.` excluding the newline);
* `float32`/`float64` values are not modelled by IEEE arithmetic: a weight
  is represented by its canonical decimal rendering (see `GoF` below) and
  probabilities are carried as exact rationals; no theorem in this file
  depends on floating-point rounding.
-/

/-- Decimal digit characters, Go's regexp `\d` class (`[0-9]`). -/
def isDig (c : Char) : Bool := c.isDigit

/-- The numeral character of a digit value below ten. -/
def digitChar (n : Nat) : Char := Char.ofNat (48 + n)

/-- Fuel-indexed digit renderer; the fuel only serves structural
recursion and `natDigits` always supplies enough of it. -/
def natDigitsAux : Nat → Nat → List Char
  | 0, _ => []
  | fuel + 1, n =>
    if n < 10 then [digitChar n]
    else natDigitsAux fuel (n / 10) ++ [digitChar (n % 10)]

/-- Decimal rendering of a natural number, most significant digit first
(the digits Go's `%d` verb prints for a non-negative value). -/
def natDigits (n : Nat) : List Char := natDigitsAux (n + 1) n

/-- Value of a digit string, as `strconv` accumulates it. -/
def digitsToNat (s : List Char) : Nat :=
  s.foldl (fun a c => a * 10 + (c.toNat - 48)) 0

/-- `math.MaxInt64`, the clamp value of Go's `strconv.ParseInt` on overflow. -/
def maxI : Nat := 9223372036854775807

/-- Model of `strconv.Atoi` restricted to the digit-only strings that the
codec's `\d*` capture groups produce: the empty string is a syntax error
with value 0 (as in Go), a too-large value is a range error clamped to
`math.MaxInt64` (as in Go).  The first component is the returned value,
the second is `true` iff the returned Go error is nil. -/
def atoi (s : List Char) : Int × Bool :=
  if s.isEmpty then (0, false)
  else if digitsToNat s ≤ maxI then ((digitsToNat s : Nat), true)
  else ((maxI : Nat), false)

/-- Go's `%d` rendering of an `int`. -/
def intFmt (i : Int) : List Char :=
  if i < 0 then '-' :: natDigits (-i).toNat else natDigits i.toNat

/-! ## The regular-expression template matcher

Both regexes of the codec (`\((.*):(.*),(\d*)\)` of `MakePattern` and the
eight-group candidate expression of `MakeCandidate`) are flat sequences of
literal characters and capture groups `(.*)` / `(\d*)`.  `matchT` runs such
a template at a fixed position with backtracking-preference semantics
(each group greedily tries its longest candidate first; `.` does not match
a newline), `searchT` tries successive start positions left to right, as
Go's `FindStringSubmatch` does.  A match needs not consume the whole
input.  `matchT` returns the list of group captures; Go's submatch `m[i]`
(for `i ≥ 1`) is the entry at index `i - 1` (the full match `m[0]` is
never used by the source). -/

/-- One template element: a literal character, a `(.*)` group, or a
`(\d*)` group. -/
inductive Item where
  | lit (c : Char)
  | capAny
  | capDigits
deriving DecidableEq, Repr

/-- Length of the longest prefix a `(.*)` group may take: `.` matches
every character except the newline. -/
def nlLimit (cs : List Char) : Nat :=
  (cs.takeWhile (fun c => !(c == '\n'))).length

/-- Length of the longest prefix a `(\d*)` group may take. -/
def digLimit (cs : List Char) : Nat :=
  (cs.takeWhile isDig).length

/-- Greedy backtracking over the split of a capture group: try to give the
group `k` characters, then `k - 1`, ... down to `0`, returning the first
success.  `m` matches the rest of the template on the rest of the input. -/
def capTry (m : List Char → Option (List (List Char))) (cs : List Char) :
    Nat → Option (List (List Char))
  | 0 =>
    match m cs with
    | some caps => some ([] :: caps)
    | none => none
  | k + 1 =>
    match m (cs.drop (k + 1)) with
    | some caps => some (cs.take (k + 1) :: caps)
    | none => capTry m cs k

/-- Run a template at the current position (backtracking preference
order); returns the captures of the first match found. -/
def matchT : List Item → List Char → Option (List (List Char))
  | [], _ => some []
  | Item.lit c :: rest, cs =>
    match cs with
    | [] => none
    | c' :: cs' => if c' = c then matchT rest cs' else none
  | Item.capAny :: rest, cs => capTry (fun t => matchT rest t) cs (nlLimit cs)
  | Item.capDigits :: rest, cs => capTry (fun t => matchT rest t) cs (digLimit cs)

/-- Unanchored search: try each start position from the left, as Go's
`FindStringSubmatch`; `none` models the nil result. -/
def searchT (tpl : List Item) : List Char → Option (List (List Char))
  | [] => matchT tpl []
  | c :: cs =>
    match matchT tpl (c :: cs) with
    | some v => some v
    | none => searchT tpl cs

/-! ## The pattern codec (from `MakePattern` / `Pattern.String`) -/

/-- `Pattern` of the profile model.  `Prob` (Go `float64`) is carried as an
exact rational: the codec never computes with it, it only stores zero or
copies a decoded value. -/
structure Pattern where
  Left : List Char
  Right : List Char
  Prob : ℚ
  Pos : Int
deriving DecidableEq, Repr

/-- The template of the regex `\((.*):(.*),(\d*)\)` used by `MakePattern`. -/
def patternTpl : List Item :=
  [Item.lit '(', Item.capAny, Item.lit ':', Item.capAny, Item.lit ',',
   Item.capDigits, Item.lit ')']

/-- `MakePattern` from the source: match the pattern expression anywhere in
the input; on failure return the error (`none`).  The `strconv.Atoi` error
on the position part is discarded by the source (`pos, _ := ...`), so the
clamped/zero value is used. -/
def MakePattern (expr : List Char) : Option Pattern :=
  match searchT patternTpl expr with
  | none => none
  | some m =>
    some { Left := m.getD 0 [], Right := m.getD 1 [], Prob := 0,
           Pos := (atoi (m.getD 2 [])).1 }

/-- `Pattern.String` from the source: `fmt.Sprintf("(%s:%s,%d)", ...)`. -/
def Pattern.fmt (p : Pattern) : List Char :=
  '(' :: (p.Left ++ ':' :: (p.Right ++ ',' :: (intFmt p.Pos ++ [')'])))


/-! ## Generic list and matcher lemmas -/

/-- `.`-matchable characters (everything but the newline). -/
def notNl (c : Char) : Bool := !(c == '\n')

theorem nlLimit_def (cs : List Char) : nlLimit cs = (cs.takeWhile notNl).length := rfl

theorem drop_append_len (X Y : List α) (n : Nat) :
    (X ++ Y).drop (X.length + n) = Y.drop n := by
  induction X with
  | nil => simp
  | cons x t ih => simpa [Nat.succ_add] using ih

theorem take_append_len (X Y : List α) (n : Nat) :
    (X ++ Y).take (X.length + n) = X ++ Y.take n := by
  induction X with
  | nil => simp
  | cons x t ih => simpa [Nat.succ_add] using ih

theorem mem_take_of_le_takeWhile {p : Char → Bool} {cs : List Char} {k : Nat}
    (h : k ≤ (cs.takeWhile p).length) : ∀ c ∈ cs.take k, p c = true := by
  induction cs generalizing k with
  | nil => simp
  | cons a t ih =>
    cases k with
    | zero => simp
    | succ j =>
      by_cases hp : p a
      · intro c hc
        rw [List.takeWhile_cons, if_pos hp] at h
        rcases List.mem_cons.mp (by simpa using hc) with rfl | hmem
        · exact hp
        · exact ih (Nat.le_of_succ_le_succ (by simpa using h)) c hmem
      · rw [List.takeWhile_cons, if_neg hp] at h
        simp at h
  
theorem le_takeWhile_of_all {p : Char → Bool} {cs : List Char} {k : Nat}
    (hk : k ≤ cs.length) (h : ∀ c ∈ cs.take k, p c = true) :
    k ≤ (cs.takeWhile p).length := by
  induction cs generalizing k with
  | nil => simpa using hk
  | cons a t ih =>
    cases k with
    | zero => exact Nat.zero_le _
    | succ j =>
      have hpa : p a = true := h a (by simp)
      rw [List.takeWhile_cons, if_pos hpa]
      have := ih (k := j) (by simpa using hk) (fun c hc => h c (by simp [hc]))
      simpa using this

theorem takeWhile_append_all {p : Char → Bool} (X Y : List Char)
    (hX : ∀ c ∈ X, p c = true) :
    (X ++ Y).takeWhile p = X ++ Y.takeWhile p := by
  induction X with
  | nil => simp
  | cons a t ih =>
    have hpa : p a = true := hX a (by simp)
    simp only [List.cons_append, List.takeWhile_cons, if_pos hpa]
    rw [ih (fun c hc => hX c (by simp [hc]))]

theorem capTry_some_max {m : List Char → Option (List (List Char))} {cs : List Char}
    {caps : List (List Char)} {k n : Nat}
    (hk : k ≤ n) (hm : m (cs.drop k) = some caps)
    (hj : ∀ j, k < j → j ≤ n → m (cs.drop j) = none) :
    capTry m cs n = some (cs.take k :: caps) := by
  induction n with
  | zero =>
    have hk0 : k = 0 := Nat.le_zero.mp hk
    subst hk0
    simp only [capTry]
    rw [show cs.drop 0 = cs from rfl] at hm
    rw [hm]
    rfl
  | succ n ih =>
    by_cases hkn : k = n + 1
    · subst hkn
      simp only [capTry]
      rw [hm]
    · have hk' : k ≤ n := by omega
      have hnone : m (cs.drop (n + 1)) = none := hj (n + 1) (by omega) (Nat.le_refl _)
      simp only [capTry]
      rw [hnone]
      exact ih hk' (fun j h1 h2 => hj j h1 (by omega))

theorem capTry_some_inv {m : List Char → Option (List (List Char))} {cs : List Char}
    {v : List (List Char)} {n : Nat} (h : capTry m cs n = some v) :
    ∃ k, k ≤ n ∧ ∃ caps, m (cs.drop k) = some caps ∧ v = cs.take k :: caps ∧
      ∀ j, k < j → j ≤ n → m (cs.drop j) = none := by
  induction n with
  | zero =>
    simp only [capTry] at h
    cases hm : m cs with
    | none => rw [hm] at h; cases h
    | some caps =>
      rw [hm] at h
      refine ⟨0, Nat.le_refl _, caps, by simpa using hm, ?_, ?_⟩
      · cases h; rfl
      · intro j h1 h2; omega
  | succ n ih =>
    simp only [capTry] at h
    cases hm : m (cs.drop (n + 1)) with
    | some caps =>
      rw [hm] at h
      exact ⟨n + 1, Nat.le_refl _, caps, hm, by cases h; rfl, fun j h1 h2 => by omega⟩
    | none =>
      rw [hm] at h
      obtain ⟨k, hk, caps, hcaps, hv, hmax⟩ := ih h
      refine ⟨k, by omega, caps, hcaps, hv, fun j h1 h2 => ?_⟩
      rcases Nat.lt_or_ge j (n + 1) with hj | hj
      · exact hmax j h1 (by omega)
      · have : j = n + 1 := by omega
        subst this; exact hm

theorem capTry_isSome {m : List Char → Option (List (List Char))} {cs : List Char}
    {k n : Nat}
    (hk : k ≤ n) (hm : (m (cs.drop k)).isSome = true) :
    (capTry m cs n).isSome = true := by
  induction n with
  | zero =>
    have hk0 : k = 0 := Nat.le_zero.mp hk
    subst hk0
    rw [show cs.drop 0 = cs from rfl] at hm
    simp only [capTry]
    cases hcs : m cs with
    | none => rw [hcs] at hm; cases hm
    | some caps => rfl
  | succ n ih =>
    simp only [capTry]
    cases hm' : m (cs.drop (n + 1)) with
    | some caps' => rfl
    | none =>
      have hkn : k ≠ n + 1 := fun hh => by rw [hh, hm'] at hm; cases hm
      exact ih (by omega)

theorem matchT_lit_cons (c : Char) (rest : List Item) (cs : List Char) :
    matchT (Item.lit c :: rest) (c :: cs) = matchT rest cs := by
  simp [matchT]

theorem matchT_lit_ne {c c' : Char} (rest : List Item) (cs : List Char)
    (h : ¬ c' = c) : matchT (Item.lit c :: rest) (c' :: cs) = none := by
  simp [matchT, h]

theorem matchT_lit_nil (c : Char) (rest : List Item) :
    matchT (Item.lit c :: rest) [] = none := rfl

theorem matchT_capAny_eq (rest : List Item) (cs : List Char) :
    matchT (Item.capAny :: rest) cs =
      capTry (fun t => matchT rest t) cs (nlLimit cs) := rfl

theorem matchT_capDigits_eq (rest : List Item) (cs : List Char) :
    matchT (Item.capDigits :: rest) cs =
      capTry (fun t => matchT rest t) cs (digLimit cs) := rfl

theorem matchT_lit_inv {c : Char} {rest : List Item} {cs : List Char}
    {v : List (List Char)} (h : matchT (Item.lit c :: rest) cs = some v) :
    ∃ cs', cs = c :: cs' ∧ matchT rest cs' = some v := by
  cases cs with
  | nil => cases h
  | cons a t =>
    by_cases hc : a = c
    · subst hc
      exact ⟨t, rfl, by rwa [matchT_lit_cons] at h⟩
    · rw [matchT_lit_ne rest t hc] at h
      cases h

theorem matchT_capAny_inv {rest : List Item} {cs : List Char} {v : List (List Char)}
    (h : matchT (Item.capAny :: rest) cs = some v) :
    ∃ k, k ≤ nlLimit cs ∧ ∃ caps, matchT rest (cs.drop k) = some caps ∧
      v = cs.take k :: caps ∧
      ∀ j, k < j → j ≤ nlLimit cs → matchT rest (cs.drop j) = none := by
  rw [matchT_capAny_eq] at h
  exact capTry_some_inv h

theorem matchT_capDigits_inv {rest : List Item} {cs : List Char} {v : List (List Char)}
    (h : matchT (Item.capDigits :: rest) cs = some v) :
    ∃ k, k ≤ digLimit cs ∧ ∃ caps, matchT rest (cs.drop k) = some caps ∧
      v = cs.take k :: caps ∧
      ∀ j, k < j → j ≤ digLimit cs → matchT rest (cs.drop j) = none := by
  rw [matchT_capDigits_eq] at h
  exact capTry_some_inv h

theorem searchT_of_match {tpl : List Item} {cs : List Char} {v : List (List Char)}
    (h : matchT tpl cs = some v) : searchT tpl cs = some v := by
  cases cs with
  | nil => simpa [searchT] using h
  | cons c t => simp [searchT, h]

theorem searchT_some_inv {tpl : List Item} {cs : List Char} {v : List (List Char)}
    (h : searchT tpl cs = some v) : ∃ i, matchT tpl (cs.drop i) = some v := by
  induction cs with
  | nil => exact ⟨0, by simpa [searchT] using h⟩
  | cons c t ih =>
    simp only [searchT] at h
    cases hm : matchT tpl (c :: t) with
    | some w =>
      rw [hm] at h
      simp only [Option.some.injEq] at h
      exact ⟨0, by rw [show (c :: t).drop 0 = c :: t from rfl, hm, h]⟩
    | none =>
      rw [hm] at h
      obtain ⟨i, hi⟩ := ih h
      exact ⟨i + 1, hi⟩

/-! ## Forced greedy steps

When the text is `X ++ a :: Y` (resp. `X ++ a :: b :: Y`) and the character
tested right after the capture group cannot occur at any later viable
position, the greedy group is forced to capture exactly `X`. -/

theorem nlLimit_ge_of_all {X rest : List Char}
    (hX : ∀ c ∈ X, notNl c = true) : X.length ≤ nlLimit (X ++ rest) := by
  rw [nlLimit_def]
  refine le_takeWhile_of_all (by simp) ?_
  intro c hc
  rw [List.take_left] at hc
  exact hX c hc

theorem capAny_forced1 (rest : List Item) (a : Char) (X Y : List Char)
    (caps : List (List Char))
    (hX : ∀ c ∈ X, notNl c = true)
    (haY : a ∉ Y)
    (hm : matchT rest Y = some caps) :
    matchT (Item.capAny :: Item.lit a :: rest) (X ++ a :: Y) = some (X :: caps) := by
  rw [matchT_capAny_eq]
  have h1 : (X ++ a :: Y).drop X.length = a :: Y := List.drop_left ..
  have h2 : (X ++ a :: Y).take X.length = X := List.take_left ..
  have hmk : matchT (Item.lit a :: rest) ((X ++ a :: Y).drop X.length) = some caps := by
    rw [h1, matchT_lit_cons]; exact hm
  have hj : ∀ j, X.length < j → j ≤ nlLimit (X ++ a :: Y) →
      matchT (Item.lit a :: rest) ((X ++ a :: Y).drop j) = none := by
    intro j hj1 _
    obtain ⟨i, rfl⟩ : ∃ i, j = X.length + (i + 1) := ⟨j - X.length - 1, by omega⟩
    rw [drop_append_len]
    rw [show (a :: Y).drop (i + 1) = Y.drop i from rfl]
    cases hY : Y.drop i with
    | nil => exact matchT_lit_nil ..
    | cons b t =>
      have hb : b ∈ Y := (List.drop_subset i Y) (by rw [hY]; exact List.mem_cons_self ..)
      exact matchT_lit_ne _ _ (fun hba => haY (hba ▸ hb))
  have := capTry_some_max (nlLimit_ge_of_all hX) hmk hj
  rwa [h2] at this

/-- Does the two-character sequence `a b` occur (adjacently) in the list? -/
def hasPairB (a b : Char) : List Char → Bool
  | x :: y :: rest => ((x == a) && (y == b)) || hasPairB a b (y :: rest)
  | _ => false

theorem hasPairB_mid (a b : Char) (U V : List Char) :
    hasPairB a b (U ++ a :: b :: V) = true := by
  induction U with
  | nil => simp [hasPairB]
  | cons x t ih =>
    cases t with
    | nil => simp [hasPairB]
    | cons u t' =>
      show hasPairB a b (x :: u :: (t' ++ a :: b :: V)) = true
      have step : hasPairB a b (x :: u :: (t' ++ a :: b :: V)) =
          (((x == a) && (u == b)) || hasPairB a b (u :: (t' ++ a :: b :: V))) := by
        simp [hasPairB]
      rw [step, show hasPairB a b (u :: (t' ++ a :: b :: V)) = true from ih]
      simp

theorem hasPairB_of_drop {a b : Char} {Y : List Char} {i : Nat} {t : List Char}
    (h : Y.drop i = a :: b :: t) : hasPairB a b Y = true := by
  have hY : Y = Y.take i ++ (a :: b :: t) := by rw [← h, List.take_append_drop]
  rw [hY]
  exact hasPairB_mid ..

theorem capAny_forced2 (rest : List Item) (a b : Char) (X Y : List Char)
    (caps : List (List Char))
    (hab : ¬ b = a)
    (hX : ∀ c ∈ X, notNl c = true)
    (hY : hasPairB a b Y = false)
    (hm : matchT rest Y = some caps) :
    matchT (Item.capAny :: Item.lit a :: Item.lit b :: rest) (X ++ a :: b :: Y) =
      some (X :: caps) := by
  rw [matchT_capAny_eq]
  have h1 : (X ++ a :: b :: Y).drop X.length = a :: b :: Y := List.drop_left ..
  have h2 : (X ++ a :: b :: Y).take X.length = X := List.take_left ..
  have hmk : matchT (Item.lit a :: Item.lit b :: rest)
      ((X ++ a :: b :: Y).drop X.length) = some caps := by
    rw [h1, matchT_lit_cons, matchT_lit_cons]; exact hm
  have hj : ∀ j, X.length < j → j ≤ nlLimit (X ++ a :: b :: Y) →
      matchT (Item.lit a :: Item.lit b :: rest) ((X ++ a :: b :: Y).drop j) = none := by
    intro j hj1 _
    obtain ⟨i, rfl⟩ : ∃ i, j = X.length + (i + 1) := ⟨j - X.length - 1, by omega⟩
    rw [drop_append_len]
    cases i with
    | zero =>
      rw [show (a :: b :: Y).drop 1 = b :: Y from rfl]
      exact matchT_lit_ne _ _ hab
    | succ i' =>
      rw [show (a :: b :: Y).drop (i' + 1 + 1) = Y.drop i' from rfl]
      cases hYd : Y.drop i' with
      | nil => exact matchT_lit_nil ..
      | cons c1 t1 =>
        by_cases hc1 : c1 = a
        · subst hc1
          rw [matchT_lit_cons]
          cases t1 with
          | nil => exact matchT_lit_nil ..
          | cons c2 t2 =>
            by_cases hc2 : c2 = b
            · subst hc2
              rw [hasPairB_of_drop hYd] at hY
              cases hY
            · exact matchT_lit_ne _ _ hc2
        · exact matchT_lit_ne _ _ hc1
  have := capTry_some_max (nlLimit_ge_of_all hX) hmk hj
  rwa [h2] at this

theorem digLimit_exact (N : List Char) (a : Char) (Y : List Char)
    (hN : ∀ c ∈ N, isDig c = true) (ha : isDig a = false) :
    digLimit (N ++ a :: Y) = N.length := by
  unfold digLimit
  rw [takeWhile_append_all _ _ hN, List.takeWhile_cons, if_neg (by simp [ha])]
  simp

theorem capDigits_forced (rest : List Item) (a : Char) (N Y : List Char)
    (caps : List (List Char))
    (hN : ∀ c ∈ N, isDig c = true) (ha : isDig a = false)
    (hm : matchT rest Y = some caps) :
    matchT (Item.capDigits :: Item.lit a :: rest) (N ++ a :: Y) = some (N :: caps) := by
  rw [matchT_capDigits_eq, digLimit_exact N a Y hN ha]
  have h1 : (N ++ a :: Y).drop N.length = a :: Y := List.drop_left ..
  have h2 : (N ++ a :: Y).take N.length = N := List.take_left ..
  have hmk : matchT (Item.lit a :: rest) ((N ++ a :: Y).drop N.length) = some caps := by
    rw [h1, matchT_lit_cons]; exact hm
  have := capTry_some_max (Nat.le_refl _) hmk (fun j h1' h2' => by omega)
  rwa [h2] at this

theorem takeWhile_length_le {p : Char → Bool} (l : List Char) :
    (l.takeWhile p).length ≤ l.length := by
  induction l with
  | nil => simp
  | cons a t ih =>
    rw [List.takeWhile_cons]
    by_cases hp : p a
    · rw [if_pos hp]; simpa using ih
    · rw [if_neg hp]; simp

theorem capAny_last (X : List Char) (hX : ∀ c ∈ X, notNl c = true) :
    matchT [Item.capAny] X = some [X] := by
  rw [matchT_capAny_eq]
  have hlim : nlLimit X = X.length := by
    refine Nat.le_antisymm (takeWhile_length_le X) ?_
    have := @nlLimit_ge_of_all X [] hX
    simpa using this
  rw [hlim]
  have hmk : matchT [] (X.drop X.length) = some [] := rfl
  have := capTry_some_max (Nat.le_refl _) hmk (fun j h1' h2' => by omega)
  rwa [List.take_length] at this

/-! ## Digit and `atoi` lemmas -/

theorem digitChar_isDig {m : Nat} (hm : m < 10) : isDig (digitChar m) = true := by
  interval_cases m <;> decide

theorem digitChar_val {m : Nat} (hm : m < 10) : (digitChar m).toNat - 48 = m := by
  interval_cases m <;> decide

theorem natDigitsAux_digits (fuel : Nat) :
    ∀ n, ∀ c ∈ natDigitsAux fuel n, isDig c = true := by
  induction fuel with
  | zero => intro n c hc; simp [natDigitsAux] at hc
  | succ f ih =>
    intro n c hc
    rw [natDigitsAux] at hc
    by_cases h : n < 10
    · rw [if_pos h] at hc
      simp only [List.mem_singleton] at hc
      subst hc
      exact digitChar_isDig h
    · rw [if_neg h] at hc
      rcases List.mem_append.mp hc with h1 | h2
      · exact ih _ c h1
      · simp only [List.mem_singleton] at h2
        subst h2
        exact digitChar_isDig (Nat.mod_lt _ (by omega))

theorem natDigits_digits (n : Nat) : ∀ c ∈ natDigits n, isDig c = true :=
  natDigitsAux_digits (n + 1) n

theorem digitsToNat_append_one (X : List Char) (c : Char) :
    digitsToNat (X ++ [c]) = digitsToNat X * 10 + (c.toNat - 48) := by
  unfold digitsToNat
  rw [List.foldl_append]
  rfl

theorem digitsToNat_natDigitsAux (fuel : Nat) :
    ∀ n, n < fuel → digitsToNat (natDigitsAux fuel n) = n := by
  induction fuel with
  | zero => intro n hn; omega
  | succ f ih =>
    intro n hn
    rw [natDigitsAux]
    by_cases h : n < 10
    · rw [if_pos h]
      show digitsToNat ([] ++ [digitChar n]) = n
      rw [digitsToNat_append_one]
      have : digitsToNat [] = 0 := rfl
      rw [this, digitChar_val h]
      omega
    · rw [if_neg h]
      rw [digitsToNat_append_one]
      have hdiv : n / 10 < f := by
        have h1 : n / 10 < n := Nat.div_lt_self (by omega) (by omega)
        omega
      rw [ih _ hdiv, digitChar_val (Nat.mod_lt _ (by omega))]
      have := Nat.div_add_mod n 10
      omega

theorem digitsToNat_natDigits (n : Nat) : digitsToNat (natDigits n) = n :=
  digitsToNat_natDigitsAux (n + 1) n (by omega)

theorem natDigits_ne_nil (n : Nat) : natDigits n ≠ [] := by
  unfold natDigits natDigitsAux
  by_cases h : n < 10
  · rw [if_pos h]; simp
  · rw [if_neg h]; simp

theorem atoi_fst_nonneg (s : List Char) : 0 ≤ (atoi s).1 := by
  unfold atoi
  split_ifs <;> simp

theorem atoi_fst_le (s : List Char) : (atoi s).1 ≤ (maxI : Int) := by
  unfold atoi
  split_ifs with h1 h2
  · simp [Int.natCast_nonneg]
  · show ((digitsToNat s : Nat) : Int) ≤ (maxI : Int)
    exact_mod_cast h2
  · simp

theorem atoi_natDigits (v : Int) (h0 : 0 ≤ v) (h1 : v ≤ (maxI : Int)) :
    atoi (natDigits v.toNat) = (v, true) := by
  unfold atoi
  have hne : (natDigits v.toNat).isEmpty = false := by
    cases h : natDigits v.toNat with
    | nil => exact absurd h (natDigits_ne_nil _)
    | cons a t => rfl
  rw [if_neg (by rw [hne]; exact Bool.false_ne_true)]
  rw [digitsToNat_natDigits]
  rw [if_pos (by omega)]
  have : ((v.toNat : Nat) : Int) = v := Int.toNat_of_nonneg h0
  rw [this]

theorem intFmt_nonneg (v : Int) (h : 0 ≤ v) : intFmt v = natDigits v.toNat := by
  unfold intFmt
  rw [if_neg (by omega)]

/-! ## Exact match and inversion for the pattern template -/

theorem matchT_patternTpl_exact (L R D : List Char)
    (hL : ∀ c ∈ L, notNl c = true) (hR : ∀ c ∈ R, notNl c = true)
    (hRc : ':' ∉ R) (hD : ∀ c ∈ D, isDig c = true) :
    matchT patternTpl ('(' :: (L ++ ':' :: (R ++ ',' :: (D ++ ')' :: [])))) =
      some [L, R, D] := by
  show matchT (Item.lit '(' :: Item.capAny :: Item.lit ':' :: Item.capAny ::
      Item.lit ',' :: Item.capDigits :: Item.lit ')' :: []) _ = _
  rw [matchT_lit_cons]
  have inner2 : matchT (Item.capDigits :: Item.lit ')' :: []) (D ++ ')' :: []) =
      some [D] := by
    have := capDigits_forced [] ')' D [] [] hD (by decide) rfl
    simpa using this
  have hcomY : ',' ∉ D ++ ')' :: ([] : List Char) := by
    intro hmem
    rcases List.mem_append.mp hmem with h1 | h2
    · exact absurd (hD _ h1) (by decide)
    · rcases List.mem_cons.mp h2 with h3 | h4
      · exact absurd h3 (by decide)
      · simp at h4
  have inner1 : matchT (Item.capAny :: Item.lit ',' :: Item.capDigits ::
      Item.lit ')' :: []) (R ++ ',' :: (D ++ ')' :: [])) = some [R, D] :=
    capAny_forced1 _ ',' R _ _ hR hcomY inner2
  have hcolY : ':' ∉ R ++ ',' :: (D ++ ')' :: ([] : List Char)) := by
    intro hmem
    rcases List.mem_append.mp hmem with h1 | h2
    · exact hRc h1
    · rcases List.mem_cons.mp h2 with h3 | h4
      · exact absurd h3 (by decide)
      · rcases List.mem_append.mp h4 with h5 | h6
        · exact absurd (hD _ h5) (by decide)
        · rcases List.mem_cons.mp h6 with h7 | h8
          · exact absurd h7 (by decide)
          · simp at h8
  exact capAny_forced1 _ ':' L _ _ hL hcolY inner1

theorem patternTpl_inv {cs : List Char} {v : List (List Char)}
    (h : matchT patternTpl cs = some v) :
    ∃ L R D rest,
      cs = '(' :: (L ++ ':' :: (R ++ ',' :: (D ++ ')' :: rest))) ∧
      v = [L, R, D] ∧
      (∀ c ∈ L, notNl c = true) ∧ (∀ c ∈ R, notNl c = true) ∧
      (∀ c ∈ D, isDig c = true) ∧ (':' ∉ R) := by
  rw [show patternTpl = Item.lit '(' :: Item.capAny :: Item.lit ':' :: Item.capAny ::
      Item.lit ',' :: Item.capDigits :: Item.lit ')' :: [] from rfl] at h
  obtain ⟨cs1, rfl, h1⟩ := matchT_lit_inv h
  obtain ⟨k1, hk1, caps1, h2, hv1, max1⟩ := matchT_capAny_inv h1
  obtain ⟨cs2, heq2, h3⟩ := matchT_lit_inv h2
  obtain ⟨k2, hk2, caps2, h4, hv2, _max2⟩ := matchT_capAny_inv h3
  obtain ⟨cs3, heq3, h5⟩ := matchT_lit_inv h4
  obtain ⟨k3, hk3, caps3, h6, hv3, _max3⟩ := matchT_capDigits_inv h5
  obtain ⟨cs4, heq4, h7⟩ := matchT_lit_inv h6
  have hcaps3 : caps3 = [] := by
    simp only [matchT, Option.some.injEq] at h7
    exact h7.symm
  have hk1len : k1 ≤ cs1.length := le_trans hk1 (takeWhile_length_le _)
  have hk2len : k2 ≤ cs2.length := le_trans hk2 (takeWhile_length_le _)
  have hk3len : k3 ≤ cs3.length := le_trans hk3 (takeWhile_length_le _)
  obtain ⟨L, hLdef⟩ : ∃ w, cs1.take k1 = w := ⟨_, rfl⟩
  obtain ⟨R, hRdef⟩ : ∃ w, cs2.take k2 = w := ⟨_, rfl⟩
  obtain ⟨D, hDdef⟩ : ∃ w, cs3.take k3 = w := ⟨_, rfl⟩
  have hL : ∀ c ∈ L, notNl c = true := by
    rw [nlLimit_def] at hk1
    rw [← hLdef]
    exact mem_take_of_le_takeWhile hk1
  have hR : ∀ c ∈ R, notNl c = true := by
    rw [nlLimit_def] at hk2
    rw [← hRdef]
    exact mem_take_of_le_takeWhile hk2
  have hD : ∀ c ∈ D, isDig c = true := by
    unfold digLimit at hk3
    rw [← hDdef]
    exact mem_take_of_le_takeWhile hk3
  have hL1 : L.length = k1 := by
    rw [← hLdef, List.length_take]; omega
  have hR1 : R.length = k2 := by
    rw [← hRdef, List.length_take]; omega
  have hcs1 : cs1 = L ++ ':' :: cs2 := by
    conv_lhs => rw [← List.take_append_drop k1 cs1]
    rw [heq2, hLdef]
  have hcs2 : cs2 = R ++ ',' :: cs3 := by
    conv_lhs => rw [← List.take_append_drop k2 cs2]
    rw [heq3, hRdef]
  have hcs3 : cs3 = D ++ ')' :: cs4 := by
    conv_lhs => rw [← List.take_append_drop k3 cs3]
    rw [heq4, hDdef]
  have hRc : ':' ∉ R := by
    intro hcol
    obtain ⟨R1, R2, hsplit⟩ := List.append_of_mem hcol
    have hRdecomp : cs2 = R1 ++ ':' :: (R2 ++ ',' :: cs3) := by
      rw [hcs2, hsplit]
      simp
    have hR1sub : ∀ c ∈ R1, c ∈ R := by
      intro c hc; rw [hsplit]; exact List.mem_append_left _ hc
    have hR2sub : ∀ c ∈ R2, c ∈ R := by
      intro c hc; rw [hsplit]
      exact List.mem_append_right _ (List.mem_cons_of_mem _ hc)
    have hdropj : cs1.drop (k1 + (R1.length + 1)) = ':' :: (R2 ++ ',' :: cs3) := by
      rw [hcs1, ← hL1, drop_append_len]
      rw [show (':' :: cs2).drop (R1.length + 1) = cs2.drop R1.length from rfl]
      rw [hRdecomp, List.drop_left]
    have htakej : cs1.take (k1 + (R1.length + 1)) = L ++ ':' :: R1 := by
      rw [hcs1, ← hL1, take_append_len]
      rw [show (':' :: cs2).take (R1.length + 1) = ':' :: cs2.take R1.length from rfl]
      rw [hRdecomp]
      rw [show (R1 ++ ':' :: (R2 ++ ',' :: cs3)).take R1.length = R1 from
        List.take_left ..]
    have hjlen : k1 + (R1.length + 1) ≤ cs1.length := by
      have hlen1 : cs1.length = k1 + (1 + cs2.length) := by
        rw [hcs1]
        simp [List.length_append, hL1]
        omega
      have hlen2 : R1.length + 1 ≤ cs2.length := by
        rw [hRdecomp]
        simp [List.length_append]
      omega
    have hjle : k1 + (R1.length + 1) ≤ nlLimit cs1 := by
      rw [nlLimit_def]
      refine le_takeWhile_of_all hjlen ?_
      rw [htakej]
      intro c hc
      rcases List.mem_append.mp hc with hc1 | hc2
      · exact hL c hc1
      · rcases List.mem_cons.mp hc2 with hc3 | hc4
        · subst hc3; decide
        · exact hR c (hR1sub c hc4)
    have hmax := max1 (k1 + (R1.length + 1)) (by omega) hjle
    rw [hdropj, matchT_lit_cons] at hmax
    have hsome : (matchT (Item.capAny :: Item.lit ',' :: Item.capDigits ::
        Item.lit ')' :: []) (R2 ++ ',' :: cs3)).isSome = true := by
      rw [matchT_capAny_eq]
      refine capTry_isSome (k := R2.length)
        (nlLimit_ge_of_all (fun c hc => hR c (hR2sub c hc))) ?_
      rw [List.drop_left, matchT_lit_cons, matchT_capDigits_eq]
      refine capTry_isSome (k := k3) ?_ ?_
      · unfold digLimit
        refine le_takeWhile_of_all hk3len ?_
        rw [hDdef]
        exact hD
      · rw [heq4, matchT_lit_cons]
        rfl
    rw [hmax] at hsome
    cases hsome
  refine ⟨L, R, D, cs4, ?_, ?_, hL, hR, hD, hRc⟩
  · rw [hcs1, hcs2, hcs3]
  · rw [hv1, hv2, hv3, hcaps3, hLdef, hRdef, hDdef]

/-! ## Claims C1 and C2 -/

/-- A structural characterisation of the inputs `MakePattern` can accept:
somewhere in the text there is a parenthesised `left:right,digits` group
(the spec's three-part `(left:right,pos)` structure, with a digits-only,
possibly empty, position part). -/
def HasShape (s : List Char) : Prop :=
  ∃ pre L R D post,
    s = pre ++ '(' :: (L ++ ':' :: (R ++ ',' :: (D ++ ')' :: post))) ∧
    ∀ c ∈ D, isDig c = true

/-- C1: for every Pattern `p` produced by a successful `MakePattern`,
parsing the text rendered by `Pattern.String` succeeds and yields a
pattern equal to `p` in Left, Right and Pos, with probability zero (`p`
itself, because a parse always stores probability zero). -/
theorem c1_pattern_roundtrip (s : List Char) (p : Pattern)
    (h : MakePattern s = some p) :
    MakePattern (Pattern.fmt p) = some p ∧ p.Prob = 0 := by
  unfold MakePattern at h
  cases hs : searchT patternTpl s with
  | none => rw [hs] at h; cases h
  | some m =>
    rw [hs] at h
    simp only [Option.some.injEq] at h
    obtain ⟨i, hm⟩ := searchT_some_inv hs
    obtain ⟨L, R, D, rest, _, hv, hL, hR, hD, hRc⟩ := patternTpl_inv hm
    subst hv
    simp only [List.getD_cons_zero, List.getD_cons_succ] at h
    have hfields : p = ⟨L, R, 0, (atoi D).1⟩ := h.symm
    subst hfields
    refine ⟨?_, rfl⟩
    unfold MakePattern
    have hfmt : Pattern.fmt ⟨L, R, 0, (atoi D).1⟩ =
        '(' :: (L ++ ':' :: (R ++ ',' :: (natDigits ((atoi D).1).toNat ++ ')' :: []))) := by
      show '(' :: (L ++ ':' :: (R ++ ',' :: (intFmt (atoi D).1 ++ [')']))) = _
      rw [intFmt_nonneg _ (atoi_fst_nonneg D)]
    rw [hfmt]
    have hmatch := matchT_patternTpl_exact L R (natDigits ((atoi D).1).toNat)
      hL hR hRc (natDigits_digits _)
    rw [searchT_of_match hmatch]
    simp only [List.getD_cons_zero, List.getD_cons_succ, Option.some.injEq]
    have := atoi_natDigits ((atoi D).1) (atoi_fst_nonneg D) (atoi_fst_le D)
    rw [this]

/-- Witness for C1 at a concrete input. -/
theorem c1_pattern_roundtrip_witness :
    MakePattern (("(a:b,1)").data) = some ⟨("a").data, ("b").data, 0, 1⟩ ∧
    MakePattern (Pattern.fmt ⟨("a").data, ("b").data, 0, 1⟩) =
      some ⟨("a").data, ("b").data, 0, 1⟩ :=
  ⟨by decide, (c1_pattern_roundtrip (("(a:b,1)").data) _ (by decide)).1⟩

/-- C2 counterexample: the claim says `MakePattern` errors on an empty
position part, but `(a:b,)` parses successfully with `Pos = 0` (the
source discards the `strconv.Atoi` error). -/
theorem c2_counterexample :
    MakePattern (("(a:b,)").data) = some ⟨("a").data, ("b").data, 0, 0⟩ := by
  decide

/-- C2 amended: `MakePattern` returns an error (and no pattern) for every
input in which the parenthesised three-part structure — with a digits-only
position part — does not occur anywhere, which covers every non-digit
position text; however an empty position part is accepted, with position
zero, because the source discards the `Atoi` error. -/
theorem c2_amended :
    (∀ s p, MakePattern s = some p → HasShape s) ∧
    MakePattern (("(a:b,)").data) = some ⟨("a").data, ("b").data, 0, 0⟩ := by
  constructor
  · intro s p h
    unfold MakePattern at h
    cases hs : searchT patternTpl s with
    | none => rw [hs] at h; cases h
    | some m =>
      obtain ⟨i, hm⟩ := searchT_some_inv hs
      obtain ⟨L, R, D, rest, hdecomp, _, _, _, hD, _⟩ := patternTpl_inv hm
      refine ⟨s.take i, L, R, D, rest, ?_, hD⟩
      rw [← hdecomp, List.take_append_drop]
  · decide

/-- Witness for C2's amended universal part at a concrete input. -/
theorem c2_amended_witness : HasShape (("(a:b,1)").data) :=
  c2_amended.1 (("(a:b,1)").data) ⟨("a").data, ("b").data, 0, 1⟩ (by decide)

/-! ## The candidate codec (from `MakeCandidate` / `Candidate.String`)

`float32` weights: the codec only ever moves a weight between its textual
form and the struct (`strconv.ParseFloat(m[6], 32)` on the way in,
`fmt.Sprintf("%g", w)` on the way out); it never computes with it.  Go's
`%g` prints the shortest decimal string that uniquely identifies the
`float32`, and `ParseFloat` maps that string back to the same value; a
finite `float32` is therefore represented faithfully and injectively by
its `%g` rendering.  `GoF` stores exactly that rendering; `gFmt` (the
`%g` verb) returns it, and `parseFloat32` models `ParseFloat` by its
success predicate (the Go decimal floating-point syntax), keeping the
parsed text as the representation.  The value `parseFloat32` assigns to a
NON-canonical text (e.g. `0.50`) is not inspected by any theorem in this
file. -/

/-- A `float32` value, represented by its shortest `%g` decimal
rendering. -/
structure GoF where
  repr : List Char
deriving DecidableEq, Repr

/-- `fmt.Sprintf("%g", w)` for a `float32`: the shortest uniquely
identifying decimal rendering, i.e. the representation itself. -/
def gFmt (w : GoF) : List Char := w.repr

/-- Exponent part of Go's decimal float syntax: empty, or `e`/`E`
followed by an optionally signed non-empty digit string. -/
def expPartOk : List Char → Bool
  | [] => true
  | c :: r =>
    if c = 'e' ∨ c = 'E' then
      let r2 := match r with
        | '+' :: t => t
        | '-' :: t => t
        | _ => r
      !r2.isEmpty && r2.all isDig
    else false

/-- Success predicate of `strconv.ParseFloat` on the decimal fragment of
Go's floating-point syntax: `[sign] (digits [. digits] | . digits)
[exponent]` (the hexadecimal and `Inf`/`NaN` forms are outside the
fragment this development exercises). -/
def validFloat (s : List Char) : Bool :=
  let t := match s with
    | '+' :: u => u
    | '-' :: u => u
    | _ => s
  let ds := t.takeWhile isDig
  let r := t.drop ds.length
  match r with
  | '.' :: r2 =>
    let fs := r2.takeWhile isDig
    let r3 := r2.drop fs.length
    (!ds.isEmpty || !fs.isEmpty) && expPartOk r3
  | _ => !ds.isEmpty && expPartOk r

/-- `strconv.ParseFloat(s, 32)`, modelled on `GoF` (see the section
comment). -/
def parseFloat32 (s : List Char) : Option GoF :=
  if validFloat s then some ⟨s⟩ else none

/-- `Candidate` of the profile model. -/
structure Candidate where
  Suggestion : List Char
  Modern : List Char
  Dict : List Char
  HistPatterns : List Pattern
  OCRPatterns : List Pattern
  Distance : Int
  Weight : GoF
deriving DecidableEq, Repr

/-- `ps2str` from the source: concatenate the `Pattern.String` renderings
with no separator. -/
def psStr : List Pattern → List Char
  | [] => []
  | p :: t => Pattern.fmt p ++ psStr t

/-- `Candidate.String` from the source file that also defines
`MakeCandidate`:
`fmt.Sprintf("%s:{%s+[%s]}+ocr[%s],voteWeight=%g,levDistance=%d,dict=%s", ...)`
(an older revision kept in the repository renders the weight with `%e`
instead of `%g`; this embedding follows the revision the candidate parser
belongs to). -/
def Candidate.fmt (c : Candidate) : List Char :=
  c.Suggestion ++ ':' :: '{' :: (c.Modern ++ '+' :: '[' ::
    (psStr c.HistPatterns ++ ']' :: '}' :: '+' :: 'o' :: 'c' :: 'r' :: '[' ::
      (psStr c.OCRPatterns ++ ']' :: ',' ::
        'v' :: 'o' :: 't' :: 'e' :: 'W' :: 'e' :: 'i' :: 'g' :: 'h' :: 't' :: '=' ::
          (gFmt c.Weight ++ ',' ::
            'l' :: 'e' :: 'v' :: 'D' :: 'i' :: 's' :: 't' :: 'a' :: 'n' :: 'c' :: 'e' :: '=' ::
              (intFmt c.Distance ++ ',' ::
                'd' :: 'i' :: 'c' :: 't' :: '=' :: c.Dict)))))

/-- Fuel-indexed scan of `FindAllString` for the regex `\([^)]*\)`: at
each `(` take the maximal run of non-`)` characters; if any character
follows the run it is necessarily a `)` (the run is maximal), so the
group is a match and the scan resumes after it (matches do not overlap);
if the input ends after the run there is no match at this `(` and the
scan moves one character to the right.  The fuel only serves structural
recursion; `findAllParen` supplies enough of it. -/
def findAllParenAux : Nat → List Char → List (List Char)
  | 0, _ => []
  | _ + 1, [] => []
  | fuel + 1, c :: cs =>
    if c = '(' then
      if (cs.drop ((cs.takeWhile (fun x => !(x == ')'))).length)).isEmpty then
        findAllParenAux fuel cs
      else
        ('(' :: (cs.takeWhile (fun x => !(x == ')')) ++ [')'])) ::
          findAllParenAux fuel
            ((cs.drop ((cs.takeWhile (fun x => !(x == ')'))).length)).tail)
    else findAllParenAux fuel cs

/-- All non-overlapping, leftmost matches of `\([^)]*\)`, as
`regexp.FindAllString(expr, -1)` returns them. -/
def findAllParen (s : List Char) : List (List Char) := findAllParenAux s.length s

/-- The `for`-loop of `str2ps`: parse each found group with
`MakePattern`, stopping at the first failure. -/
def str2psGo : List (List Char) → Option (List Pattern)
  | [] => some []
  | e :: es =>
    match MakePattern e with
    | none => none
    | some p =>
      match str2psGo es with
      | none => none
      | some ps => some (p :: ps)

/-- `str2ps` from the source: find every parenthesised group and parse
each with `MakePattern`; no groups at all is a success with no patterns
(the source returns `nil, nil` for a nil match list), and any failing
group fails the whole call. -/
def str2ps (expr : List Char) : Option (List Pattern) :=
  str2psGo (findAllParen expr)

/-- The template of the candidate regex
`(.*)@(.*):\{(.*)\+\[(.*)\]\}\+ocr\[(.*)\],voteWeight=(.*),levDistance=(\d*),dict=(.*)`. -/
def candidateTpl : List Item :=
  [Item.capAny, Item.lit '@', Item.capAny, Item.lit ':', Item.lit '{', Item.capAny,
   Item.lit '+', Item.lit '[', Item.capAny, Item.lit ']', Item.lit '}', Item.lit '+',
   Item.lit 'o', Item.lit 'c', Item.lit 'r', Item.lit '[', Item.capAny, Item.lit ']',
   Item.lit ',', Item.lit 'v', Item.lit 'o', Item.lit 't', Item.lit 'e', Item.lit 'W',
   Item.lit 'e', Item.lit 'i', Item.lit 'g', Item.lit 'h', Item.lit 't', Item.lit '=',
   Item.capAny, Item.lit ',', Item.lit 'l', Item.lit 'e', Item.lit 'v', Item.lit 'D',
   Item.lit 'i', Item.lit 's', Item.lit 't', Item.lit 'a', Item.lit 'n', Item.lit 'c',
   Item.lit 'e', Item.lit '=', Item.capDigits, Item.lit ',', Item.lit 'd', Item.lit 'i',
   Item.lit 'c', Item.lit 't', Item.lit '=', Item.capAny]

/-- `MakeCandidate` from the source.  Go's submatch `m[i]` is the model's
capture at index `i - 1`.  The distance (`strconv.Atoi(m[7])`) and weight
(`strconv.ParseFloat(m[6], 32)`) errors are checked, unlike in
`MakePattern`; the pattern lists go through `str2ps`.  The second
component of the result is the leading `ocrToken` capture `m[1]`. -/
def MakeCandidate (expr : List Char) : Option (Candidate × List Char) :=
  match searchT candidateTpl expr with
  | none => none
  | some m =>
    let dist := atoi (m.getD 6 [])
    if dist.2 = false then none
    else
      match parseFloat32 (m.getD 5 []) with
      | none => none
      | some w =>
        match str2ps (m.getD 3 []) with
        | none => none
        | some hp =>
          match str2ps (m.getD 4 []) with
          | none => none
          | some op =>
            some ({ Suggestion := m.getD 1 [], Modern := m.getD 2 [],
                    Dict := m.getD 7 [], HistPatterns := hp, OCRPatterns := op,
                    Distance := dist.1, Weight := w }, m.getD 0 [])


/-! ## Claims C4 and the C3 counterexample -/

theorem makeCandidate_at_mem {s : List Char} {r : Candidate × List Char}
    (h : MakeCandidate s = some r) : '@' ∈ s := by
  unfold MakeCandidate at h
  cases hs : searchT candidateTpl s with
  | none => rw [hs] at h; cases h
  | some m =>
    obtain ⟨i, hm⟩ := searchT_some_inv hs
    rw [show candidateTpl =
      Item.capAny :: Item.lit '@' :: (candidateTpl.drop 2) from rfl] at hm
    obtain ⟨k, _, caps, hlit, _, _⟩ := matchT_capAny_inv hm
    obtain ⟨cs', heq, _⟩ := matchT_lit_inv hlit
    have hmem : '@' ∈ (s.drop i).drop k := by
      rw [heq]; exact List.mem_cons_self ..
    exact List.drop_subset _ _ (List.drop_subset _ _ hmem)

/-- C4 counterexample: a well-formed candidate record with no leading
`ocrToken@` prefix (no `@` anywhere) is rejected by `MakeCandidate` —
the regex `(.*)@(.*):...` makes the `@` mandatory — although the claim
says parsing succeeds with an empty ocrToken. -/
theorem c4_counterexample :
    MakeCandidate
      (("theil:\x7bteil+[(t:th,0)]\x7d+ocr[(i:y,3)],voteWeight=0.749764,levDistance=1,dict=d").data) =
      none := by
  decide

/-- C4 amended: the `ocrToken@` prefix is mandatory, not optional: a line
containing no `@` at all always fails to parse; the prefix may however be
empty — prefixing a bare `@` to a well-formed record parses successfully
and returns the empty ocrToken. -/
theorem c4_amended :
    (∀ s, '@' ∉ s → MakeCandidate s = none) ∧
    MakeCandidate
      (("@theil:\x7bteil+[(t:th,0)]\x7d+ocr[(i:y,3)],voteWeight=0.749764,levDistance=1,dict=d").data) =
      some (⟨("theil").data, ("teil").data, ("d").data,
        [⟨("t").data, ("th").data, 0, 0⟩], [⟨("i").data, ("y").data, 0, 3⟩],
        1, ⟨("0.749764").data⟩⟩, []) := by
  constructor
  · intro s hs
    cases h : MakeCandidate s with
    | none => rfl
    | some r => exact absurd (makeCandidate_at_mem h) hs
  · decide

/-- Witness for C4's amended universal part at a concrete input. -/
theorem c4_amended_witness : MakeCandidate (("no at sign anywhere").data) = none :=
  c4_amended.1 (("no at sign anywhere").data) (by decide)

/-- C3 counterexample: the round trip fails for a Candidate whose
Suggestion contains `@` — the greedy ocrToken group captures up to the
last `@`, so `t@a@b:{...}` comes back with ocrToken `t@a` and Suggestion
`b`, not `(c, "t")`. -/
theorem c3_counterexample :
    MakeCandidate (("t").data ++ '@' ::
        Candidate.fmt ⟨("a@b").data, ("m").data, ("d").data, [], [], 0, ⟨("0").data⟩⟩) ≠
      some (⟨("a@b").data, ("m").data, ("d").data, [], [], 0, ⟨("0").data⟩⟩, ("t").data) := by
  decide

/-! ## Well-formedness for the amended candidate round trip (C3)

The counterexamples show the round trip cannot hold for arbitrary field
contents; these predicates carve out the grammar-safe candidates: fields
free of the line grammar's metacharacters and of the newline, patterns
with zero probability and an in-range non-negative position, and a weight
whose canonical text is a plain decimal float. -/

/-- A character that is safe inside a free-text field of the candidate
grammar: not a newline and none of the metacharacters of the line
grammar or the pattern grammar. -/
def okChar (c : Char) : Bool :=
  !(c == '\n') && !(c == '@') && !(c == ':') && !(c == '{') && !(c == '}') &&
  !(c == '+') && !(c == '[') && !(c == ']') && !(c == ',') && !(c == '(') &&
  !(c == ')')

/-- A grammar-safe free-text field. -/
def fieldOK (s : List Char) : Bool := s.all okChar

/-- A grammar-safe pattern inside a candidate: safe fields, zero
probability (a parse always stores zero), and an in-range non-negative
position. -/
def patOK (p : Pattern) : Prop :=
  fieldOK p.Left = true ∧ fieldOK p.Right = true ∧ p.Prob = 0 ∧
    0 ≤ p.Pos ∧ p.Pos ≤ (maxI : Int)

/-- Characters `%g` can produce for a finite float. -/
def floatCharOK (c : Char) : Bool :=
  isDig c || (c == '.') || (c == 'e') || (c == '-') || (c == '+')

/-- A grammar-safe canonical weight text: non-empty, made of decimal
float characters, and accepted by `ParseFloat`. -/
def wfWeight (s : List Char) : Bool :=
  !s.isEmpty && s.all floatCharOK && validFloat s

theorem okChar_spec {c : Char} (h : okChar c = true) :
    ¬c = '\n' ∧ ¬c = '@' ∧ ¬c = ':' ∧ ¬c = '{' ∧ ¬c = '}' ∧ ¬c = '+' ∧
    ¬c = '[' ∧ ¬c = ']' ∧ ¬c = ',' ∧ ¬c = '(' ∧ ¬c = ')' := by
  simp only [okChar, Bool.and_eq_true, Bool.not_eq_true', beq_eq_false_iff_ne,
    ne_eq] at h
  tauto

theorem fieldOK_okChar {s : List Char} (h : fieldOK s = true) :
    ∀ c ∈ s, okChar c = true := List.all_eq_true.mp h

theorem fieldOK_notNl {s : List Char} (h : fieldOK s = true) :
    ∀ c ∈ s, notNl c = true := by
  intro c hc
  have h2 := (okChar_spec (fieldOK_okChar h c hc)).1
  simp [notNl]
  exact h2

theorem fieldOK_not_mem {s : List Char} (h : fieldOK s = true) {y : Char}
    (hy : okChar y = false) : y ∉ s := by
  intro hc
  have := fieldOK_okChar h y hc
  rw [hy] at this
  cases this

theorem isDig_ne_of {c x : Char} (h : isDig c = true) (hx : isDig x = false) :
    ¬c = x := by
  intro he
  subst he
  rw [h] at hx
  cases hx

theorem digits_not_mem {s : List Char} (h : ∀ c ∈ s, isDig c = true) {y : Char}
    (hy : isDig y = false) : y ∉ s := by
  intro hc
  have := h y hc
  rw [hy] at this
  cases this

theorem digits_notNl {s : List Char} (h : ∀ c ∈ s, isDig c = true) :
    ∀ c ∈ s, notNl c = true := by
  intro c hc
  have hne := isDig_ne_of (h c hc) (show isDig '\n' = false from by decide)
  simp [notNl]
  exact hne

theorem wfWeight_floatChars {s : List Char} (h : wfWeight s = true) :
    ∀ c ∈ s, floatCharOK c = true := by
  have h2 : s.all floatCharOK = true := by
    simp only [wfWeight, Bool.and_eq_true] at h
    exact h.1.2
  exact List.all_eq_true.mp h2

theorem wfWeight_validFloat {s : List Char} (h : wfWeight s = true) :
    validFloat s = true := by
  simp only [wfWeight, Bool.and_eq_true] at h
  exact h.2

theorem floatChars_not_mem {s : List Char} (h : ∀ c ∈ s, floatCharOK c = true)
    {y : Char} (hy : floatCharOK y = false) : y ∉ s := by
  intro hc
  have := h y hc
  rw [hy] at this
  cases this

theorem floatChars_notNl {s : List Char} (h : ∀ c ∈ s, floatCharOK c = true) :
    ∀ c ∈ s, notNl c = true := by
  intro c hc
  have h2 := h c hc
  have : ¬c = '\n' := by
    intro he
    subst he
    exact absurd h2 (by decide)
  simp [notNl]
  exact this

theorem psStr_mem_cases {ps : List Pattern} (hps : ∀ p ∈ ps, patOK p)
    {x : Char} (hx : x ∈ psStr ps) :
    okChar x = true ∨ isDig x = true ∨ x = '(' ∨ x = ')' ∨ x = ':' ∨ x = ',' := by
  induction ps with
  | nil => simp [psStr] at hx
  | cons p t ih =>
    have hp := hps p (by simp)
    obtain ⟨hL, hR, _, hpos0, _⟩ := hp
    rw [show psStr (p :: t) = Pattern.fmt p ++ psStr t from rfl] at hx
    rcases List.mem_append.mp hx with hx1 | hx2
    · rw [show Pattern.fmt p =
        '(' :: (p.Left ++ ':' :: (p.Right ++ ',' :: (intFmt p.Pos ++ [')']))) from rfl,
        intFmt_nonneg _ hpos0] at hx1
      rcases List.mem_cons.mp hx1 with rfl | hx1
      · tauto
      rcases List.mem_append.mp hx1 with hx1 | hx1
      · exact Or.inl (fieldOK_okChar hL x hx1)
      rcases List.mem_cons.mp hx1 with rfl | hx1
      · tauto
      rcases List.mem_append.mp hx1 with hx1 | hx1
      · exact Or.inl (fieldOK_okChar hR x hx1)
      rcases List.mem_cons.mp hx1 with rfl | hx1
      · tauto
      rcases List.mem_append.mp hx1 with hx1 | hx1
      · exact Or.inr (Or.inl (natDigits_digits _ x hx1))
      · rcases List.mem_cons.mp hx1 with rfl | hx1
        · tauto
        · simp at hx1
    · exact ih (fun q hq => hps q (by simp [hq])) hx2

theorem psStr_not_mem {ps : List Pattern} (hps : ∀ p ∈ ps, patOK p) {y : Char}
    (h1 : okChar y = false) (h2 : isDig y = false) (h3 : ¬y = '(')
    (h4 : ¬y = ')') (h5 : ¬y = ':') (h6 : ¬y = ',') : y ∉ psStr ps := by
  intro hy
  rcases psStr_mem_cases hps hy with h | h | h | h | h | h
  · rw [h1] at h; cases h
  · rw [h2] at h; cases h
  · exact h3 h
  · exact h4 h
  · exact h5 h
  · exact h6 h

theorem psStr_notNl {ps : List Pattern} (hps : ∀ p ∈ ps, patOK p) :
    ∀ x ∈ psStr ps, notNl x = true := by
  intro x hx
  rcases psStr_mem_cases hps hx with h | h | h | h | h | h
  · have := (okChar_spec h).1
    simp [notNl]; exact this
  · have := isDig_ne_of h (show isDig '\n' = false from by decide)
    simp [notNl]; exact this
  all_goals (subst h; decide)

/-! ## Composition lemmas for `hasPairB` -/

theorem hasPairB_false_of_left {a b : Char} {s : List Char} (h : a ∉ s) :
    hasPairB a b s = false := by
  induction s with
  | nil => rfl
  | cons x t ih =>
    cases t with
    | nil => rfl
    | cons y u =>
      have hxa : ¬x = a := fun he => h (he ▸ List.mem_cons_self ..)
      have hrest : a ∉ y :: u := fun hm => h (List.mem_cons_of_mem _ hm)
      rw [show hasPairB a b (x :: y :: u) =
        (((x == a) && (y == b)) || hasPairB a b (y :: u)) from rfl]
      rw [ih hrest]
      simp [hxa]

theorem hasPairB_false_of_right {a b : Char} {s : List Char} (h : b ∉ s) :
    hasPairB a b s = false := by
  induction s with
  | nil => rfl
  | cons x t ih =>
    cases t with
    | nil => rfl
    | cons y u =>
      have hyb : ¬y = b := fun he => h (he ▸ List.mem_cons_of_mem _ (List.mem_cons_self ..))
      have hrest : b ∉ y :: u := fun hm => h (List.mem_cons_of_mem _ hm)
      rw [show hasPairB a b (x :: y :: u) =
        (((x == a) && (y == b)) || hasPairB a b (y :: u)) from rfl]
      rw [ih hrest]
      simp [hyb]

theorem hasPairB_append_false {a b : Char} {X Y : List Char}
    (hX : hasPairB a b X = false) (hY : hasPairB a b Y = false)
    (hb : X.getLast? ≠ some a ∨ Y.head? ≠ some b) :
    hasPairB a b (X ++ Y) = false := by
  induction X with
  | nil => simpa using hY
  | cons x t ih =>
    cases t with
    | nil =>
      cases Y with
      | nil => rfl
      | cons y u =>
        have hxy : ¬(x = a ∧ y = b) := by
          rintro ⟨rfl, rfl⟩
          rcases hb with h | h
          · exact h rfl
          · exact h rfl
        rw [show ([x] ++ y :: u) = x :: y :: u from rfl]
        rw [show hasPairB a b (x :: y :: u) =
          (((x == a) && (y == b)) || hasPairB a b (y :: u)) from rfl]
        rw [hY]
        simp only [Bool.or_false, Bool.and_eq_false_iff]
        by_cases hx : x = a
        · subst hx
          right
          simp only [beq_eq_false_iff_ne, ne_eq]
          exact fun he => hxy ⟨rfl, he⟩
        · left
          simp only [beq_eq_false_iff_ne, ne_eq]
          exact hx
    | cons z u =>
      have hhead : hasPairB a b (x :: z :: u) = false := hX
      have hxz : ((x == a) && (z == b)) = false := by
        rw [show hasPairB a b (x :: z :: u) =
          (((x == a) && (z == b)) || hasPairB a b (z :: u)) from rfl] at hhead
        exact (Bool.or_eq_false_iff.mp hhead).1
      have htail : hasPairB a b (z :: u) = false := by
        rw [show hasPairB a b (x :: z :: u) =
          (((x == a) && (z == b)) || hasPairB a b (z :: u)) from rfl] at hhead
        exact (Bool.or_eq_false_iff.mp hhead).2
      have hlast : (z :: u).getLast? = (x :: z :: u).getLast? :=
        (List.getLast?_cons_cons ..).symm
      have := ih htail (by rw [hlast]; exact hb)
      rw [show ((x :: z :: u) ++ Y) = x :: ((z :: u) ++ Y) from rfl]
      rw [show hasPairB a b (x :: ((z :: u) ++ Y)) =
        (((x == a) && ((z :: u ++ Y).headI == b)) || hasPairB a b ((z :: u) ++ Y))
        from rfl]
      rw [this]
      simp only [Bool.or_false]
      rw [show ((z :: u ++ Y).headI) = z from rfl]
      exact hxz

/-! ## `findAllParen` and `str2ps` on rendered pattern lists -/

theorem findAllParenAux_nil (fuel : Nat) : findAllParenAux fuel [] = [] := by
  cases fuel <;> rfl

theorem findAllParenAux_irrel (n : Nat) :
    ∀ (fuel fuel' : Nat) (l : List Char), l.length ≤ n → l.length ≤ fuel →
      l.length ≤ fuel' → findAllParenAux fuel l = findAllParenAux fuel' l := by
  induction n with
  | zero =>
    intro fuel fuel' l h0 _ _
    have : l = [] := List.length_eq_zero.mp (by omega)
    subst this
    rw [findAllParenAux_nil, findAllParenAux_nil]
  | succ n ih =>
    intro fuel fuel' l hl h1 h2
    cases l with
    | nil => rw [findAllParenAux_nil, findAllParenAux_nil]
    | cons c cs =>
      simp only [List.length_cons] at hl h1 h2
      cases fuel with
      | zero => omega
      | succ f =>
        cases fuel' with
        | zero => omega
        | succ f' =>
          simp only [findAllParenAux]
          by_cases hc : c = '('
          · rw [if_pos hc, if_pos hc]
            by_cases hre : (cs.drop ((cs.takeWhile (fun x => !(x == ')'))).length)).isEmpty
            · rw [if_pos hre, if_pos hre]
              exact ih f f' cs (by omega) (by omega) (by omega)
            · rw [if_neg hre, if_neg hre]
              have hlen : (cs.drop ((cs.takeWhile (fun x => !(x == ')'))).length)).tail.length
                  ≤ cs.length := by
                rw [List.length_tail, List.length_drop]
                omega
              rw [ih f f' _ (by omega) (by omega) (by omega)]
          · rw [if_neg hc, if_neg hc]
            exact ih f f' cs (by omega) (by omega) (by omega)

theorem findAllParenAux_step (fuel : Nat) (body rest : List Char)
    (hb : ∀ x ∈ body, ¬x = ')') :
    findAllParenAux (fuel + 1) ('(' :: (body ++ ')' :: rest)) =
      ('(' :: (body ++ [')'])) :: findAllParenAux fuel rest := by
  have hrun : (body ++ ')' :: rest).takeWhile (fun x => !(x == ')')) = body := by
    rw [takeWhile_append_all _ _ (fun c hc => by
      simp only [Bool.not_eq_true', beq_eq_false_iff_ne, ne_eq]
      exact hb c hc)]
    rw [List.takeWhile_cons, if_neg (by simp)]
    simp
  simp only [findAllParenAux]
  rw [if_pos trivial, hrun, List.drop_left]
  rw [if_neg (by simp)]
  rfl

theorem findAllParen_piece (body rest : List Char)
    (hb : ∀ x ∈ body, ¬x = ')') :
    findAllParen ('(' :: (body ++ ')' :: rest)) =
      ('(' :: (body ++ [')'])) :: findAllParen rest := by
  unfold findAllParen
  rw [show ('(' :: (body ++ ')' :: rest)).length = (body ++ ')' :: rest).length + 1
    from rfl]
  rw [findAllParenAux_step _ _ _ hb]
  have hlen : rest.length ≤ (body ++ ')' :: rest).length := by
    simp [List.length_append]
    omega
  rw [findAllParenAux_irrel (body ++ ')' :: rest).length _ _ rest hlen hlen
    (Nat.le_refl _)]

theorem makePattern_fmt {p : Pattern} (hp : patOK p) :
    MakePattern (Pattern.fmt p) = some p := by
  obtain ⟨hL, hR, hprob, hpos0, hpos1⟩ := hp
  obtain ⟨L, R, Pr, Pos⟩ := p
  simp only at hL hR hprob hpos0 hpos1
  subst hprob
  unfold MakePattern
  have hfmt : Pattern.fmt ⟨L, R, 0, Pos⟩ =
      '(' :: (L ++ ':' :: (R ++ ',' :: (natDigits Pos.toNat ++ ')' :: []))) := by
    show '(' :: (L ++ ':' :: (R ++ ',' :: (intFmt Pos ++ [')']))) = _
    rw [intFmt_nonneg _ hpos0]
  rw [hfmt]
  have hmatch := matchT_patternTpl_exact L R (natDigits Pos.toNat)
    (fieldOK_notNl hL) (fieldOK_notNl hR)
    (fieldOK_not_mem hR (by decide)) (natDigits_digits _)
  rw [searchT_of_match hmatch]
  simp only [List.getD_cons_zero, List.getD_cons_succ, Option.some.injEq]
  rw [atoi_natDigits Pos hpos0 hpos1]

theorem findAllParen_psStr {ps : List Pattern} (hps : ∀ p ∈ ps, patOK p) :
    findAllParen (psStr ps) = ps.map Pattern.fmt := by
  induction ps with
  | nil => rfl
  | cons p t ih =>
    have hp := hps p (by simp)
    obtain ⟨hL, hR, _, hpos0, _⟩ := hp
    have hshape : psStr (p :: t) =
        '(' :: ((p.Left ++ ':' :: (p.Right ++ ',' :: natDigits p.Pos.toNat)) ++
          ')' :: psStr t) := by
      show Pattern.fmt p ++ psStr t = _
      rw [show Pattern.fmt p =
        '(' :: (p.Left ++ ':' :: (p.Right ++ ',' :: (intFmt p.Pos ++ [')']))) from rfl,
        intFmt_nonneg _ hpos0]
      simp
    rw [hshape]
    have hb : ∀ x ∈ p.Left ++ ':' :: (p.Right ++ ',' :: natDigits p.Pos.toNat),
        ¬x = ')' := by
      intro x hx
      rcases List.mem_append.mp hx with h1 | h1
      · exact (okChar_spec (fieldOK_okChar hL x h1)).2.2.2.2.2.2.2.2.2.2
      rcases List.mem_cons.mp h1 with rfl | h1
      · decide
      rcases List.mem_append.mp h1 with h2 | h2
      · exact (okChar_spec (fieldOK_okChar hR x h2)).2.2.2.2.2.2.2.2.2.2
      rcases List.mem_cons.mp h2 with rfl | h2
      · decide
      · exact isDig_ne_of (natDigits_digits _ x h2) (by decide)
    rw [findAllParen_piece _ _ hb]
    rw [ih (fun q hq => hps q (by simp [hq]))]
    congr 1
    rw [show Pattern.fmt p =
      '(' :: (p.Left ++ ':' :: (p.Right ++ ',' :: (intFmt p.Pos ++ [')']))) from rfl,
      intFmt_nonneg _ hpos0]
    simp

theorem str2ps_psStr {ps : List Pattern} (hps : ∀ p ∈ ps, patOK p) :
    str2ps (psStr ps) = some ps := by
  unfold str2ps
  rw [findAllParen_psStr hps]
  induction ps with
  | nil => rfl
  | cons p t ih =>
    rw [show (p :: t).map Pattern.fmt = Pattern.fmt p :: t.map Pattern.fmt from rfl]
    rw [show str2psGo (Pattern.fmt p :: t.map Pattern.fmt) =
      (match MakePattern (Pattern.fmt p) with
       | none => none
       | some q =>
         match str2psGo (t.map Pattern.fmt) with
         | none => none
         | some qs => some (q :: qs)) from rfl]
    rw [makePattern_fmt (hps p (by simp))]
    rw [ih (fun q hq => hps q (by simp [hq]))]

/-! ## Small membership helpers for the candidate line -/

theorem not_mem_cons_of {x c : Char} {l : List Char} (h1 : ¬x = c) (h2 : x ∉ l) :
    x ∉ c :: l := by
  intro h
  rcases List.mem_cons.mp h with h3 | h3
  · exact h1 h3
  · exact h2 h3

theorem not_mem_append_of {x : Char} {l1 l2 : List Char} (h1 : x ∉ l1)
    (h2 : x ∉ l2) : x ∉ l1 ++ l2 := by
  intro h
  rcases List.mem_append.mp h with h3 | h3
  · exact h1 h3
  · exact h2 h3

theorem head_cons_append (c : Char) (l1 l2 : List Char) :
    ((c :: l1) ++ l2).head? = some c := rfl

/-! ## The forced parse of a rendered candidate line (for C3) -/

/-- Matching the candidate template against `<t>@<rendered candidate>`
is forced, group by group, to capture exactly the rendered components:
each greedy group's separator cannot reoccur at a later viable position
in the grammar-safe remainder. -/
theorem candidateTpl_exact
    (t S M Dc Ws Ns : List Char) (Hp Op : List Pattern)
    (ht : ∀ x ∈ t, notNl x = true)
    (hS : fieldOK S = true) (hM : fieldOK M = true) (hDc : fieldOK Dc = true)
    (hH : ∀ p ∈ Hp, patOK p) (hO : ∀ p ∈ Op, patOK p)
    (hWc : ∀ x ∈ Ws, floatCharOK x = true)
    (hN : ∀ x ∈ Ns, isDig x = true) :
    matchT candidateTpl
      (t ++ '@' :: (S ++ ':' :: '{' :: (M ++ '+' :: '[' :: (psStr Hp ++ ']' :: '}' :: '+' :: 'o' :: 'c' :: 'r' :: '[' :: (psStr Op ++ ']' :: ',' :: 'v' :: 'o' :: 't' :: 'e' :: 'W' :: 'e' :: 'i' :: 'g' :: 'h' :: 't' :: '=' :: (Ws ++ ',' :: 'l' :: 'e' :: 'v' :: 'D' :: 'i' :: 's' :: 't' :: 'a' :: 'n' :: 'c' :: 'e' :: '=' :: (Ns ++ ',' :: 'd' :: 'i' :: 'c' :: 't' :: '=' :: Dc))))))) =
      some [t, S, M, psStr Hp, psStr Op, Ws, Ns, Dc] := by
  have hSnl : ∀ x ∈ S, notNl x = true := fieldOK_notNl hS
  have hMnl : ∀ x ∈ M, notNl x = true := fieldOK_notNl hM
  have hDcnl : ∀ x ∈ Dc, notNl x = true := fieldOK_notNl hDc
  have hHsnl : ∀ x ∈ psStr Hp, notNl x = true := psStr_notNl hH
  have hOsnl : ∀ x ∈ psStr Op, notNl x = true := psStr_notNl hO
  have hWsnl : ∀ x ∈ Ws, notNl x = true := floatChars_notNl hWc
  have hY5not : (']' : Char) ∉ ',' :: 'v' :: 'o' :: 't' :: 'e' :: 'W' :: 'e' :: 'i' :: 'g' :: 'h' :: 't' :: '=' :: (Ws ++ ',' :: 'l' :: 'e' :: 'v' :: 'D' :: 'i' :: 's' :: 't' :: 'a' :: 'n' :: 'c' :: 'e' :: '=' :: (Ns ++ ',' :: 'd' :: 'i' :: 'c' :: 't' :: '=' :: Dc)) :=
    not_mem_cons_of (by decide) (not_mem_cons_of (by decide) (not_mem_cons_of (by decide) (not_mem_cons_of (by decide) (not_mem_cons_of (by decide) (not_mem_cons_of (by decide) (not_mem_cons_of (by decide) (not_mem_cons_of (by decide) (not_mem_cons_of (by decide) (not_mem_cons_of (by decide) (not_mem_cons_of (by decide) (not_mem_cons_of (by decide) (not_mem_append_of (floatChars_not_mem hWc (by decide)) (not_mem_cons_of (by decide) (not_mem_cons_of (by decide) (not_mem_cons_of (by decide) (not_mem_cons_of (by decide) (not_mem_cons_of (by decide) (not_mem_cons_of (by decide) (not_mem_cons_of (by decide) (not_mem_cons_of (by decide) (not_mem_cons_of (by decide) (not_mem_cons_of (by decide) (not_mem_cons_of (by decide) (not_mem_cons_of (by decide) (not_mem_cons_of (by decide) (not_mem_append_of (digits_not_mem hN (by decide)) (not_mem_cons_of (by decide) (not_mem_cons_of (by decide) (not_mem_cons_of (by decide) (not_mem_cons_of (by decide) (not_mem_cons_of (by decide) (not_mem_cons_of (by decide) (fieldOK_not_mem hDc (by decide))))))))))))))))))))))))))))))))))
  have hS4not : ('}' : Char) ∉ '+' :: 'o' :: 'c' :: 'r' :: '[' :: (psStr Op ++ ']' :: ',' :: 'v' :: 'o' :: 't' :: 'e' :: 'W' :: 'e' :: 'i' :: 'g' :: 'h' :: 't' :: '=' :: (Ws ++ ',' :: 'l' :: 'e' :: 'v' :: 'D' :: 'i' :: 's' :: 't' :: 'a' :: 'n' :: 'c' :: 'e' :: '=' :: (Ns ++ ',' :: 'd' :: 'i' :: 'c' :: 't' :: '=' :: Dc))) :=
    not_mem_cons_of (by decide) (not_mem_cons_of (by decide) (not_mem_cons_of (by decide) (not_mem_cons_of (by decide) (not_mem_cons_of (by decide) (not_mem_append_of (psStr_not_mem hO (by decide) (by decide) (by decide) (by decide) (by decide) (by decide)) (not_mem_cons_of (by decide) (not_mem_cons_of (by decide) (not_mem_cons_of (by decide) (not_mem_cons_of (by decide) (not_mem_cons_of (by decide) (not_mem_cons_of (by decide) (not_mem_cons_of (by decide) (not_mem_cons_of (by decide) (not_mem_cons_of (by decide) (not_mem_cons_of (by decide) (not_mem_cons_of (by decide) (not_mem_cons_of (by decide) (not_mem_cons_of (by decide) (not_mem_append_of (floatChars_not_mem hWc (by decide)) (not_mem_cons_of (by decide) (not_mem_cons_of (by decide) (not_mem_cons_of (by decide) (not_mem_cons_of (by decide) (not_mem_cons_of (by decide) (not_mem_cons_of (by decide) (not_mem_cons_of (by decide) (not_mem_cons_of (by decide) (not_mem_cons_of (by decide) (not_mem_cons_of (by decide) (not_mem_cons_of (by decide) (not_mem_cons_of (by decide) (not_mem_cons_of (by decide) (not_mem_append_of (digits_not_mem hN (by decide)) (not_mem_cons_of (by decide) (not_mem_cons_of (by decide) (not_mem_cons_of (by decide) (not_mem_cons_of (by decide) (not_mem_cons_of (by decide) (not_mem_cons_of (by decide) (fieldOK_not_mem hDc (by decide)))))))))))))))))))))))))))))))))))))))))
  have hSMnot : ('{' : Char) ∉ (M ++ '+' :: '[' :: (psStr Hp ++ ']' :: '}' :: '+' :: 'o' :: 'c' :: 'r' :: '[' :: (psStr Op ++ ']' :: ',' :: 'v' :: 'o' :: 't' :: 'e' :: 'W' :: 'e' :: 'i' :: 'g' :: 'h' :: 't' :: '=' :: (Ws ++ ',' :: 'l' :: 'e' :: 'v' :: 'D' :: 'i' :: 's' :: 't' :: 'a' :: 'n' :: 'c' :: 'e' :: '=' :: (Ns ++ ',' :: 'd' :: 'i' :: 'c' :: 't' :: '=' :: Dc))))) :=
    not_mem_append_of (fieldOK_not_mem hM (by decide)) (not_mem_cons_of (by decide) (not_mem_cons_of (by decide) (not_mem_append_of (psStr_not_mem hH (by decide) (by decide) (by decide) (by decide) (by decide) (by decide)) (not_mem_cons_of (by decide) (not_mem_cons_of (by decide) (not_mem_cons_of (by decide) (not_mem_cons_of (by decide) (not_mem_cons_of (by decide) (not_mem_cons_of (by decide) (not_mem_cons_of (by decide) (not_mem_append_of (psStr_not_mem hO (by decide) (by decide) (by decide) (by decide) (by decide) (by decide)) (not_mem_cons_of (by decide) (not_mem_cons_of (by decide) (not_mem_cons_of (by decide) (not_mem_cons_of (by decide) (not_mem_cons_of (by decide) (not_mem_cons_of (by decide) (not_mem_cons_of (by decide) (not_mem_cons_of (by decide) (not_mem_cons_of (by decide) (not_mem_cons_of (by decide) (not_mem_cons_of (by decide) (not_mem_cons_of (by decide) (not_mem_cons_of (by decide) (not_mem_append_of (floatChars_not_mem hWc (by decide)) (not_mem_cons_of (by decide) (not_mem_cons_of (by decide) (not_mem_cons_of (by decide) (not_mem_cons_of (by decide) (not_mem_cons_of (by decide) (not_mem_cons_of (by decide) (not_mem_cons_of (by decide) (not_mem_cons_of (by decide) (not_mem_cons_of (by decide) (not_mem_cons_of (by decide) (not_mem_cons_of (by decide) (not_mem_cons_of (by decide) (not_mem_cons_of (by decide) (not_mem_append_of (digits_not_mem hN (by decide)) (not_mem_cons_of (by decide) (not_mem_cons_of (by decide) (not_mem_cons_of (by decide) (not_mem_cons_of (by decide) (not_mem_cons_of (by decide) (not_mem_cons_of (by decide) (fieldOK_not_mem hDc (by decide)))))))))))))))))))))))))))))))))))))))))))))))
  have hSSnot : ('@' : Char) ∉ (S ++ ':' :: '{' :: (M ++ '+' :: '[' :: (psStr Hp ++ ']' :: '}' :: '+' :: 'o' :: 'c' :: 'r' :: '[' :: (psStr Op ++ ']' :: ',' :: 'v' :: 'o' :: 't' :: 'e' :: 'W' :: 'e' :: 'i' :: 'g' :: 'h' :: 't' :: '=' :: (Ws ++ ',' :: 'l' :: 'e' :: 'v' :: 'D' :: 'i' :: 's' :: 't' :: 'a' :: 'n' :: 'c' :: 'e' :: '=' :: (Ns ++ ',' :: 'd' :: 'i' :: 'c' :: 't' :: '=' :: Dc)))))) :=
    not_mem_append_of (fieldOK_not_mem hS (by decide)) (not_mem_cons_of (by decide) (not_mem_cons_of (by decide) (not_mem_append_of (fieldOK_not_mem hM (by decide)) (not_mem_cons_of (by decide) (not_mem_cons_of (by decide) (not_mem_append_of (psStr_not_mem hH (by decide) (by decide) (by decide) (by decide) (by decide) (by decide)) (not_mem_cons_of (by decide) (not_mem_cons_of (by decide) (not_mem_cons_of (by decide) (not_mem_cons_of (by decide) (not_mem_cons_of (by decide) (not_mem_cons_of (by decide) (not_mem_cons_of (by decide) (not_mem_append_of (psStr_not_mem hO (by decide) (by decide) (by decide) (by decide) (by decide) (by decide)) (not_mem_cons_of (by decide) (not_mem_cons_of (by decide) (not_mem_cons_of (by decide) (not_mem_cons_of (by decide) (not_mem_cons_of (by decide) (not_mem_cons_of (by decide) (not_mem_cons_of (by decide) (not_mem_cons_of (by decide) (not_mem_cons_of (by decide) (not_mem_cons_of (by decide) (not_mem_cons_of (by decide) (not_mem_cons_of (by decide) (not_mem_cons_of (by decide) (not_mem_append_of (floatChars_not_mem hWc (by decide)) (not_mem_cons_of (by decide) (not_mem_cons_of (by decide) (not_mem_cons_of (by decide) (not_mem_cons_of (by decide) (not_mem_cons_of (by decide) (not_mem_cons_of (by decide) (not_mem_cons_of (by decide) (not_mem_cons_of (by decide) (not_mem_cons_of (by decide) (not_mem_cons_of (by decide) (not_mem_cons_of (by decide) (not_mem_cons_of (by decide) (not_mem_cons_of (by decide) (not_mem_append_of (digits_not_mem hN (by decide)) (not_mem_cons_of (by decide) (not_mem_cons_of (by decide) (not_mem_cons_of (by decide) (not_mem_cons_of (by decide) (not_mem_cons_of (by decide) (not_mem_cons_of (by decide) (fieldOK_not_mem hDc (by decide))))))))))))))))))))))))))))))))))))))))))))))))))
  have p6a : hasPairB ',' 'l' Dc = false :=
    hasPairB_false_of_left (fieldOK_not_mem hDc (by decide))
  have p6b : hasPairB ',' 'l' ((',' :: 'd' :: 'i' :: 'c' :: 't' :: '=' :: []) ++ Dc) = false :=
    hasPairB_append_false (by decide) p6a (Or.inl (by decide))
  have p6c : hasPairB ',' 'l' (Ns ++ ((',' :: 'd' :: 'i' :: 'c' :: 't' :: '=' :: []) ++ Dc)) = false :=
    hasPairB_append_false (hasPairB_false_of_left (digits_not_mem hN (by decide)))
      p6b (Or.inr (by rw [head_cons_append]; decide))
  have p6d : hasPairB ',' 'l'
      (('e' :: 'v' :: 'D' :: 'i' :: 's' :: 't' :: 'a' :: 'n' :: 'c' :: 'e' :: '=' :: []) ++ (Ns ++ ((',' :: 'd' :: 'i' :: 'c' :: 't' :: '=' :: []) ++ Dc))) = false :=
    hasPairB_append_false (by decide) p6c (Or.inl (by decide))
  have p3a : hasPairB '+' '[' Dc = false :=
    hasPairB_false_of_left (fieldOK_not_mem hDc (by decide))
  have p3b : hasPairB '+' '[' ((',' :: 'd' :: 'i' :: 'c' :: 't' :: '=' :: []) ++ Dc) = false :=
    hasPairB_append_false (by decide) p3a (Or.inl (by decide))
  have p3c : hasPairB '+' '[' (Ns ++ ((',' :: 'd' :: 'i' :: 'c' :: 't' :: '=' :: []) ++ Dc)) = false :=
    hasPairB_append_false (hasPairB_false_of_left (digits_not_mem hN (by decide)))
      p3b (Or.inr (by rw [head_cons_append]; decide))
  have p3d : hasPairB '+' '['
      ((',' :: 'l' :: 'e' :: 'v' :: 'D' :: 'i' :: 's' :: 't' :: 'a' :: 'n' :: 'c' :: 'e' :: '=' :: []) ++ (Ns ++ ((',' :: 'd' :: 'i' :: 'c' :: 't' :: '=' :: []) ++ Dc))) = false :=
    hasPairB_append_false (by decide) p3c (Or.inl (by decide))
  have p3e : hasPairB '+' '['
      (Ws ++ ((',' :: 'l' :: 'e' :: 'v' :: 'D' :: 'i' :: 's' :: 't' :: 'a' :: 'n' :: 'c' :: 'e' :: '=' :: []) ++ (Ns ++ ((',' :: 'd' :: 'i' :: 'c' :: 't' :: '=' :: []) ++ Dc)))) = false :=
    hasPairB_append_false
      (hasPairB_false_of_right (floatChars_not_mem hWc (by decide)))
      p3d (Or.inr (by rw [head_cons_append]; decide))
  have p3f : hasPairB '+' '['
      ((']' :: ',' :: 'v' :: 'o' :: 't' :: 'e' :: 'W' :: 'e' :: 'i' :: 'g' :: 'h' :: 't' :: '=' :: []) ++
        (Ws ++ ((',' :: 'l' :: 'e' :: 'v' :: 'D' :: 'i' :: 's' :: 't' :: 'a' :: 'n' :: 'c' :: 'e' :: '=' :: []) ++ (Ns ++ ((',' :: 'd' :: 'i' :: 'c' :: 't' :: '=' :: []) ++ Dc))))) = false :=
    hasPairB_append_false (by decide) p3e (Or.inl (by decide))
  have p3g : hasPairB '+' '['
      (psStr Op ++ ((']' :: ',' :: 'v' :: 'o' :: 't' :: 'e' :: 'W' :: 'e' :: 'i' :: 'g' :: 'h' :: 't' :: '=' :: []) ++
        (Ws ++ ((',' :: 'l' :: 'e' :: 'v' :: 'D' :: 'i' :: 's' :: 't' :: 'a' :: 'n' :: 'c' :: 'e' :: '=' :: []) ++ (Ns ++ ((',' :: 'd' :: 'i' :: 'c' :: 't' :: '=' :: []) ++ Dc)))))) = false :=
    hasPairB_append_false
      (hasPairB_false_of_left
        (psStr_not_mem hO (by decide) (by decide) (by decide) (by decide) (by decide) (by decide)))
      p3f (Or.inr (by rw [head_cons_append]; decide))
  have p3h : hasPairB '+' '['
      ((']' :: '}' :: '+' :: 'o' :: 'c' :: 'r' :: '[' :: []) ++
        (psStr Op ++ ((']' :: ',' :: 'v' :: 'o' :: 't' :: 'e' :: 'W' :: 'e' :: 'i' :: 'g' :: 'h' :: 't' :: '=' :: []) ++
          (Ws ++ ((',' :: 'l' :: 'e' :: 'v' :: 'D' :: 'i' :: 's' :: 't' :: 'a' :: 'n' :: 'c' :: 'e' :: '=' :: []) ++ (Ns ++ ((',' :: 'd' :: 'i' :: 'c' :: 't' :: '=' :: []) ++ Dc))))))) = false :=
    hasPairB_append_false (by decide) p3g (Or.inl (by decide))
  have p3i : hasPairB '+' '['
      (psStr Hp ++ ((']' :: '}' :: '+' :: 'o' :: 'c' :: 'r' :: '[' :: []) ++
        (psStr Op ++ ((']' :: ',' :: 'v' :: 'o' :: 't' :: 'e' :: 'W' :: 'e' :: 'i' :: 'g' :: 'h' :: 't' :: '=' :: []) ++
          (Ws ++ ((',' :: 'l' :: 'e' :: 'v' :: 'D' :: 'i' :: 's' :: 't' :: 'a' :: 'n' :: 'c' :: 'e' :: '=' :: []) ++ (Ns ++ ((',' :: 'd' :: 'i' :: 'c' :: 't' :: '=' :: []) ++ Dc)))))))) = false :=
    hasPairB_append_false
      (hasPairB_false_of_left
        (psStr_not_mem hH (by decide) (by decide) (by decide) (by decide) (by decide) (by decide)))
      p3h (Or.inr (by rw [head_cons_append]; decide))
  have E8 : matchT [Item.capAny] Dc = some [Dc] := capAny_last Dc hDcnl
  have E7 : matchT (Item.lit 'd' :: Item.lit 'i' :: Item.lit 'c' :: Item.lit 't' :: Item.lit '=' :: [Item.capAny]) ('d' :: 'i' :: 'c' :: 't' :: '=' :: Dc) = some [Dc] := by
    rw [matchT_lit_cons, matchT_lit_cons, matchT_lit_cons, matchT_lit_cons, matchT_lit_cons]
    exact E8
  have E6 : matchT (Item.capDigits :: Item.lit ',' :: Item.lit 'd' :: Item.lit 'i' :: Item.lit 'c' :: Item.lit 't' :: Item.lit '=' :: [Item.capAny]) (Ns ++ ',' :: 'd' :: 'i' :: 'c' :: 't' :: '=' :: Dc) = some [Ns, Dc] :=
    capDigits_forced (Item.lit 'd' :: Item.lit 'i' :: Item.lit 'c' :: Item.lit 't' :: Item.lit '=' :: [Item.capAny]) ',' Ns ('d' :: 'i' :: 'c' :: 't' :: '=' :: Dc) [Dc] hN (by decide) E7
  have E5 : matchT (Item.lit 'e' :: Item.lit 'v' :: Item.lit 'D' :: Item.lit 'i' :: Item.lit 's' :: Item.lit 't' :: Item.lit 'a' :: Item.lit 'n' :: Item.lit 'c' :: Item.lit 'e' :: Item.lit '=' :: Item.capDigits :: Item.lit ',' :: Item.lit 'd' :: Item.lit 'i' :: Item.lit 'c' :: Item.lit 't' :: Item.lit '=' :: [Item.capAny]) ('e' :: 'v' :: 'D' :: 'i' :: 's' :: 't' :: 'a' :: 'n' :: 'c' :: 'e' :: '=' :: (Ns ++ ',' :: 'd' :: 'i' :: 'c' :: 't' :: '=' :: Dc)) = some [Ns, Dc] := by
    rw [matchT_lit_cons, matchT_lit_cons, matchT_lit_cons, matchT_lit_cons, matchT_lit_cons, matchT_lit_cons, matchT_lit_cons, matchT_lit_cons, matchT_lit_cons, matchT_lit_cons, matchT_lit_cons]
    exact E6
  have E4 : matchT (Item.capAny :: Item.lit ',' :: Item.lit 'l' :: Item.lit 'e' :: Item.lit 'v' :: Item.lit 'D' :: Item.lit 'i' :: Item.lit 's' :: Item.lit 't' :: Item.lit 'a' :: Item.lit 'n' :: Item.lit 'c' :: Item.lit 'e' :: Item.lit '=' :: Item.capDigits :: Item.lit ',' :: Item.lit 'd' :: Item.lit 'i' :: Item.lit 'c' :: Item.lit 't' :: Item.lit '=' :: [Item.capAny]) (Ws ++ ',' :: 'l' :: 'e' :: 'v' :: 'D' :: 'i' :: 's' :: 't' :: 'a' :: 'n' :: 'c' :: 'e' :: '=' :: (Ns ++ ',' :: 'd' :: 'i' :: 'c' :: 't' :: '=' :: Dc)) = some [Ws, Ns, Dc] :=
    capAny_forced2 (Item.lit 'e' :: Item.lit 'v' :: Item.lit 'D' :: Item.lit 'i' :: Item.lit 's' :: Item.lit 't' :: Item.lit 'a' :: Item.lit 'n' :: Item.lit 'c' :: Item.lit 'e' :: Item.lit '=' :: Item.capDigits :: Item.lit ',' :: Item.lit 'd' :: Item.lit 'i' :: Item.lit 'c' :: Item.lit 't' :: Item.lit '=' :: [Item.capAny]) ',' 'l' Ws ('e' :: 'v' :: 'D' :: 'i' :: 's' :: 't' :: 'a' :: 'n' :: 'c' :: 'e' :: '=' :: (Ns ++ ',' :: 'd' :: 'i' :: 'c' :: 't' :: '=' :: Dc)) [Ns, Dc] (by decide) hWsnl p6d E5
  have E3b : matchT (Item.lit ',' :: Item.lit 'v' :: Item.lit 'o' :: Item.lit 't' :: Item.lit 'e' :: Item.lit 'W' :: Item.lit 'e' :: Item.lit 'i' :: Item.lit 'g' :: Item.lit 'h' :: Item.lit 't' :: Item.lit '=' :: Item.capAny :: Item.lit ',' :: Item.lit 'l' :: Item.lit 'e' :: Item.lit 'v' :: Item.lit 'D' :: Item.lit 'i' :: Item.lit 's' :: Item.lit 't' :: Item.lit 'a' :: Item.lit 'n' :: Item.lit 'c' :: Item.lit 'e' :: Item.lit '=' :: Item.capDigits :: Item.lit ',' :: Item.lit 'd' :: Item.lit 'i' :: Item.lit 'c' :: Item.lit 't' :: Item.lit '=' :: [Item.capAny]) (',' :: 'v' :: 'o' :: 't' :: 'e' :: 'W' :: 'e' :: 'i' :: 'g' :: 'h' :: 't' :: '=' :: (Ws ++ ',' :: 'l' :: 'e' :: 'v' :: 'D' :: 'i' :: 's' :: 't' :: 'a' :: 'n' :: 'c' :: 'e' :: '=' :: (Ns ++ ',' :: 'd' :: 'i' :: 'c' :: 't' :: '=' :: Dc))) = some [Ws, Ns, Dc] := by
    rw [matchT_lit_cons, matchT_lit_cons, matchT_lit_cons, matchT_lit_cons, matchT_lit_cons, matchT_lit_cons, matchT_lit_cons, matchT_lit_cons, matchT_lit_cons, matchT_lit_cons, matchT_lit_cons, matchT_lit_cons]
    exact E4
  have E3 : matchT (Item.capAny :: Item.lit ']' :: Item.lit ',' :: Item.lit 'v' :: Item.lit 'o' :: Item.lit 't' :: Item.lit 'e' :: Item.lit 'W' :: Item.lit 'e' :: Item.lit 'i' :: Item.lit 'g' :: Item.lit 'h' :: Item.lit 't' :: Item.lit '=' :: Item.capAny :: Item.lit ',' :: Item.lit 'l' :: Item.lit 'e' :: Item.lit 'v' :: Item.lit 'D' :: Item.lit 'i' :: Item.lit 's' :: Item.lit 't' :: Item.lit 'a' :: Item.lit 'n' :: Item.lit 'c' :: Item.lit 'e' :: Item.lit '=' :: Item.capDigits :: Item.lit ',' :: Item.lit 'd' :: Item.lit 'i' :: Item.lit 'c' :: Item.lit 't' :: Item.lit '=' :: [Item.capAny]) (psStr Op ++ ']' :: ',' :: 'v' :: 'o' :: 't' :: 'e' :: 'W' :: 'e' :: 'i' :: 'g' :: 'h' :: 't' :: '=' :: (Ws ++ ',' :: 'l' :: 'e' :: 'v' :: 'D' :: 'i' :: 's' :: 't' :: 'a' :: 'n' :: 'c' :: 'e' :: '=' :: (Ns ++ ',' :: 'd' :: 'i' :: 'c' :: 't' :: '=' :: Dc))) =
      some [psStr Op, Ws, Ns, Dc] :=
    capAny_forced1 (Item.lit ',' :: Item.lit 'v' :: Item.lit 'o' :: Item.lit 't' :: Item.lit 'e' :: Item.lit 'W' :: Item.lit 'e' :: Item.lit 'i' :: Item.lit 'g' :: Item.lit 'h' :: Item.lit 't' :: Item.lit '=' :: Item.capAny :: Item.lit ',' :: Item.lit 'l' :: Item.lit 'e' :: Item.lit 'v' :: Item.lit 'D' :: Item.lit 'i' :: Item.lit 's' :: Item.lit 't' :: Item.lit 'a' :: Item.lit 'n' :: Item.lit 'c' :: Item.lit 'e' :: Item.lit '=' :: Item.capDigits :: Item.lit ',' :: Item.lit 'd' :: Item.lit 'i' :: Item.lit 'c' :: Item.lit 't' :: Item.lit '=' :: [Item.capAny]) ']' (psStr Op) (',' :: 'v' :: 'o' :: 't' :: 'e' :: 'W' :: 'e' :: 'i' :: 'g' :: 'h' :: 't' :: '=' :: (Ws ++ ',' :: 'l' :: 'e' :: 'v' :: 'D' :: 'i' :: 's' :: 't' :: 'a' :: 'n' :: 'c' :: 'e' :: '=' :: (Ns ++ ',' :: 'd' :: 'i' :: 'c' :: 't' :: '=' :: Dc))) [Ws, Ns, Dc] hOsnl hY5not E3b
  have E2b : matchT (Item.lit '+' :: Item.lit 'o' :: Item.lit 'c' :: Item.lit 'r' :: Item.lit '[' :: Item.capAny :: Item.lit ']' :: Item.lit ',' :: Item.lit 'v' :: Item.lit 'o' :: Item.lit 't' :: Item.lit 'e' :: Item.lit 'W' :: Item.lit 'e' :: Item.lit 'i' :: Item.lit 'g' :: Item.lit 'h' :: Item.lit 't' :: Item.lit '=' :: Item.capAny :: Item.lit ',' :: Item.lit 'l' :: Item.lit 'e' :: Item.lit 'v' :: Item.lit 'D' :: Item.lit 'i' :: Item.lit 's' :: Item.lit 't' :: Item.lit 'a' :: Item.lit 'n' :: Item.lit 'c' :: Item.lit 'e' :: Item.lit '=' :: Item.capDigits :: Item.lit ',' :: Item.lit 'd' :: Item.lit 'i' :: Item.lit 'c' :: Item.lit 't' :: Item.lit '=' :: [Item.capAny]) ('+' :: 'o' :: 'c' :: 'r' :: '[' :: (psStr Op ++ ']' :: ',' :: 'v' :: 'o' :: 't' :: 'e' :: 'W' :: 'e' :: 'i' :: 'g' :: 'h' :: 't' :: '=' :: (Ws ++ ',' :: 'l' :: 'e' :: 'v' :: 'D' :: 'i' :: 's' :: 't' :: 'a' :: 'n' :: 'c' :: 'e' :: '=' :: (Ns ++ ',' :: 'd' :: 'i' :: 'c' :: 't' :: '=' :: Dc)))) = some [psStr Op, Ws, Ns, Dc] := by
    rw [matchT_lit_cons, matchT_lit_cons, matchT_lit_cons, matchT_lit_cons, matchT_lit_cons]
    exact E3
  have E2 : matchT (Item.capAny :: Item.lit ']' :: Item.lit '}' :: Item.lit '+' :: Item.lit 'o' :: Item.lit 'c' :: Item.lit 'r' :: Item.lit '[' :: Item.capAny :: Item.lit ']' :: Item.lit ',' :: Item.lit 'v' :: Item.lit 'o' :: Item.lit 't' :: Item.lit 'e' :: Item.lit 'W' :: Item.lit 'e' :: Item.lit 'i' :: Item.lit 'g' :: Item.lit 'h' :: Item.lit 't' :: Item.lit '=' :: Item.capAny :: Item.lit ',' :: Item.lit 'l' :: Item.lit 'e' :: Item.lit 'v' :: Item.lit 'D' :: Item.lit 'i' :: Item.lit 's' :: Item.lit 't' :: Item.lit 'a' :: Item.lit 'n' :: Item.lit 'c' :: Item.lit 'e' :: Item.lit '=' :: Item.capDigits :: Item.lit ',' :: Item.lit 'd' :: Item.lit 'i' :: Item.lit 'c' :: Item.lit 't' :: Item.lit '=' :: [Item.capAny]) (psStr Hp ++ ']' :: '}' :: '+' :: 'o' :: 'c' :: 'r' :: '[' :: (psStr Op ++ ']' :: ',' :: 'v' :: 'o' :: 't' :: 'e' :: 'W' :: 'e' :: 'i' :: 'g' :: 'h' :: 't' :: '=' :: (Ws ++ ',' :: 'l' :: 'e' :: 'v' :: 'D' :: 'i' :: 's' :: 't' :: 'a' :: 'n' :: 'c' :: 'e' :: '=' :: (Ns ++ ',' :: 'd' :: 'i' :: 'c' :: 't' :: '=' :: Dc)))) =
      some [psStr Hp, psStr Op, Ws, Ns, Dc] :=
    capAny_forced2 (Item.lit '+' :: Item.lit 'o' :: Item.lit 'c' :: Item.lit 'r' :: Item.lit '[' :: Item.capAny :: Item.lit ']' :: Item.lit ',' :: Item.lit 'v' :: Item.lit 'o' :: Item.lit 't' :: Item.lit 'e' :: Item.lit 'W' :: Item.lit 'e' :: Item.lit 'i' :: Item.lit 'g' :: Item.lit 'h' :: Item.lit 't' :: Item.lit '=' :: Item.capAny :: Item.lit ',' :: Item.lit 'l' :: Item.lit 'e' :: Item.lit 'v' :: Item.lit 'D' :: Item.lit 'i' :: Item.lit 's' :: Item.lit 't' :: Item.lit 'a' :: Item.lit 'n' :: Item.lit 'c' :: Item.lit 'e' :: Item.lit '=' :: Item.capDigits :: Item.lit ',' :: Item.lit 'd' :: Item.lit 'i' :: Item.lit 'c' :: Item.lit 't' :: Item.lit '=' :: [Item.capAny]) ']' '}' (psStr Hp) ('+' :: 'o' :: 'c' :: 'r' :: '[' :: (psStr Op ++ ']' :: ',' :: 'v' :: 'o' :: 't' :: 'e' :: 'W' :: 'e' :: 'i' :: 'g' :: 'h' :: 't' :: '=' :: (Ws ++ ',' :: 'l' :: 'e' :: 'v' :: 'D' :: 'i' :: 's' :: 't' :: 'a' :: 'n' :: 'c' :: 'e' :: '=' :: (Ns ++ ',' :: 'd' :: 'i' :: 'c' :: 't' :: '=' :: Dc))))
      [psStr Op, Ws, Ns, Dc] (by decide) hHsnl (hasPairB_false_of_right hS4not) E2b
  have E1 : matchT (Item.capAny :: Item.lit '+' :: Item.lit '[' :: Item.capAny :: Item.lit ']' :: Item.lit '}' :: Item.lit '+' :: Item.lit 'o' :: Item.lit 'c' :: Item.lit 'r' :: Item.lit '[' :: Item.capAny :: Item.lit ']' :: Item.lit ',' :: Item.lit 'v' :: Item.lit 'o' :: Item.lit 't' :: Item.lit 'e' :: Item.lit 'W' :: Item.lit 'e' :: Item.lit 'i' :: Item.lit 'g' :: Item.lit 'h' :: Item.lit 't' :: Item.lit '=' :: Item.capAny :: Item.lit ',' :: Item.lit 'l' :: Item.lit 'e' :: Item.lit 'v' :: Item.lit 'D' :: Item.lit 'i' :: Item.lit 's' :: Item.lit 't' :: Item.lit 'a' :: Item.lit 'n' :: Item.lit 'c' :: Item.lit 'e' :: Item.lit '=' :: Item.capDigits :: Item.lit ',' :: Item.lit 'd' :: Item.lit 'i' :: Item.lit 'c' :: Item.lit 't' :: Item.lit '=' :: [Item.capAny]) (M ++ '+' :: '[' :: (psStr Hp ++ ']' :: '}' :: '+' :: 'o' :: 'c' :: 'r' :: '[' :: (psStr Op ++ ']' :: ',' :: 'v' :: 'o' :: 't' :: 'e' :: 'W' :: 'e' :: 'i' :: 'g' :: 'h' :: 't' :: '=' :: (Ws ++ ',' :: 'l' :: 'e' :: 'v' :: 'D' :: 'i' :: 's' :: 't' :: 'a' :: 'n' :: 'c' :: 'e' :: '=' :: (Ns ++ ',' :: 'd' :: 'i' :: 'c' :: 't' :: '=' :: Dc))))) =
      some [M, psStr Hp, psStr Op, Ws, Ns, Dc] :=
    capAny_forced2 (Item.capAny :: Item.lit ']' :: Item.lit '}' :: Item.lit '+' :: Item.lit 'o' :: Item.lit 'c' :: Item.lit 'r' :: Item.lit '[' :: Item.capAny :: Item.lit ']' :: Item.lit ',' :: Item.lit 'v' :: Item.lit 'o' :: Item.lit 't' :: Item.lit 'e' :: Item.lit 'W' :: Item.lit 'e' :: Item.lit 'i' :: Item.lit 'g' :: Item.lit 'h' :: Item.lit 't' :: Item.lit '=' :: Item.capAny :: Item.lit ',' :: Item.lit 'l' :: Item.lit 'e' :: Item.lit 'v' :: Item.lit 'D' :: Item.lit 'i' :: Item.lit 's' :: Item.lit 't' :: Item.lit 'a' :: Item.lit 'n' :: Item.lit 'c' :: Item.lit 'e' :: Item.lit '=' :: Item.capDigits :: Item.lit ',' :: Item.lit 'd' :: Item.lit 'i' :: Item.lit 'c' :: Item.lit 't' :: Item.lit '=' :: [Item.capAny]) '+' '[' M ((psStr Hp ++ ']' :: '}' :: '+' :: 'o' :: 'c' :: 'r' :: '[' :: (psStr Op ++ ']' :: ',' :: 'v' :: 'o' :: 't' :: 'e' :: 'W' :: 'e' :: 'i' :: 'g' :: 'h' :: 't' :: '=' :: (Ws ++ ',' :: 'l' :: 'e' :: 'v' :: 'D' :: 'i' :: 's' :: 't' :: 'a' :: 'n' :: 'c' :: 'e' :: '=' :: (Ns ++ ',' :: 'd' :: 'i' :: 'c' :: 't' :: '=' :: Dc)))))
      [psStr Hp, psStr Op, Ws, Ns, Dc] (by decide) hMnl p3i E2
  have E0s : matchT (Item.capAny :: Item.lit ':' :: Item.lit '{' :: Item.capAny :: Item.lit '+' :: Item.lit '[' :: Item.capAny :: Item.lit ']' :: Item.lit '}' :: Item.lit '+' :: Item.lit 'o' :: Item.lit 'c' :: Item.lit 'r' :: Item.lit '[' :: Item.capAny :: Item.lit ']' :: Item.lit ',' :: Item.lit 'v' :: Item.lit 'o' :: Item.lit 't' :: Item.lit 'e' :: Item.lit 'W' :: Item.lit 'e' :: Item.lit 'i' :: Item.lit 'g' :: Item.lit 'h' :: Item.lit 't' :: Item.lit '=' :: Item.capAny :: Item.lit ',' :: Item.lit 'l' :: Item.lit 'e' :: Item.lit 'v' :: Item.lit 'D' :: Item.lit 'i' :: Item.lit 's' :: Item.lit 't' :: Item.lit 'a' :: Item.lit 'n' :: Item.lit 'c' :: Item.lit 'e' :: Item.lit '=' :: Item.capDigits :: Item.lit ',' :: Item.lit 'd' :: Item.lit 'i' :: Item.lit 'c' :: Item.lit 't' :: Item.lit '=' :: [Item.capAny]) (S ++ ':' :: '{' :: (M ++ '+' :: '[' :: (psStr Hp ++ ']' :: '}' :: '+' :: 'o' :: 'c' :: 'r' :: '[' :: (psStr Op ++ ']' :: ',' :: 'v' :: 'o' :: 't' :: 'e' :: 'W' :: 'e' :: 'i' :: 'g' :: 'h' :: 't' :: '=' :: (Ws ++ ',' :: 'l' :: 'e' :: 'v' :: 'D' :: 'i' :: 's' :: 't' :: 'a' :: 'n' :: 'c' :: 'e' :: '=' :: (Ns ++ ',' :: 'd' :: 'i' :: 'c' :: 't' :: '=' :: Dc)))))) =
      some [S, M, psStr Hp, psStr Op, Ws, Ns, Dc] :=
    capAny_forced2 (Item.capAny :: Item.lit '+' :: Item.lit '[' :: Item.capAny :: Item.lit ']' :: Item.lit '}' :: Item.lit '+' :: Item.lit 'o' :: Item.lit 'c' :: Item.lit 'r' :: Item.lit '[' :: Item.capAny :: Item.lit ']' :: Item.lit ',' :: Item.lit 'v' :: Item.lit 'o' :: Item.lit 't' :: Item.lit 'e' :: Item.lit 'W' :: Item.lit 'e' :: Item.lit 'i' :: Item.lit 'g' :: Item.lit 'h' :: Item.lit 't' :: Item.lit '=' :: Item.capAny :: Item.lit ',' :: Item.lit 'l' :: Item.lit 'e' :: Item.lit 'v' :: Item.lit 'D' :: Item.lit 'i' :: Item.lit 's' :: Item.lit 't' :: Item.lit 'a' :: Item.lit 'n' :: Item.lit 'c' :: Item.lit 'e' :: Item.lit '=' :: Item.capDigits :: Item.lit ',' :: Item.lit 'd' :: Item.lit 'i' :: Item.lit 'c' :: Item.lit 't' :: Item.lit '=' :: [Item.capAny]) ':' '{' S ((M ++ '+' :: '[' :: (psStr Hp ++ ']' :: '}' :: '+' :: 'o' :: 'c' :: 'r' :: '[' :: (psStr Op ++ ']' :: ',' :: 'v' :: 'o' :: 't' :: 'e' :: 'W' :: 'e' :: 'i' :: 'g' :: 'h' :: 't' :: '=' :: (Ws ++ ',' :: 'l' :: 'e' :: 'v' :: 'D' :: 'i' :: 's' :: 't' :: 'a' :: 'n' :: 'c' :: 'e' :: '=' :: (Ns ++ ',' :: 'd' :: 'i' :: 'c' :: 't' :: '=' :: Dc))))))
      [M, psStr Hp, psStr Op, Ws, Ns, Dc] (by decide) hSnl
      (hasPairB_false_of_right hSMnot) E1
  have E0 : matchT (Item.capAny :: Item.lit '@' :: Item.capAny :: Item.lit ':' :: Item.lit '{' :: Item.capAny :: Item.lit '+' :: Item.lit '[' :: Item.capAny :: Item.lit ']' :: Item.lit '}' :: Item.lit '+' :: Item.lit 'o' :: Item.lit 'c' :: Item.lit 'r' :: Item.lit '[' :: Item.capAny :: Item.lit ']' :: Item.lit ',' :: Item.lit 'v' :: Item.lit 'o' :: Item.lit 't' :: Item.lit 'e' :: Item.lit 'W' :: Item.lit 'e' :: Item.lit 'i' :: Item.lit 'g' :: Item.lit 'h' :: Item.lit 't' :: Item.lit '=' :: Item.capAny :: Item.lit ',' :: Item.lit 'l' :: Item.lit 'e' :: Item.lit 'v' :: Item.lit 'D' :: Item.lit 'i' :: Item.lit 's' :: Item.lit 't' :: Item.lit 'a' :: Item.lit 'n' :: Item.lit 'c' :: Item.lit 'e' :: Item.lit '=' :: Item.capDigits :: Item.lit ',' :: Item.lit 'd' :: Item.lit 'i' :: Item.lit 'c' :: Item.lit 't' :: Item.lit '=' :: [Item.capAny]) (t ++ '@' :: (S ++ ':' :: '{' :: (M ++ '+' :: '[' :: (psStr Hp ++ ']' :: '}' :: '+' :: 'o' :: 'c' :: 'r' :: '[' :: (psStr Op ++ ']' :: ',' :: 'v' :: 'o' :: 't' :: 'e' :: 'W' :: 'e' :: 'i' :: 'g' :: 'h' :: 't' :: '=' :: (Ws ++ ',' :: 'l' :: 'e' :: 'v' :: 'D' :: 'i' :: 's' :: 't' :: 'a' :: 'n' :: 'c' :: 'e' :: '=' :: (Ns ++ ',' :: 'd' :: 'i' :: 'c' :: 't' :: '=' :: Dc))))))) =
      some [t, S, M, psStr Hp, psStr Op, Ws, Ns, Dc] :=
    capAny_forced1 (Item.capAny :: Item.lit ':' :: Item.lit '{' :: Item.capAny :: Item.lit '+' :: Item.lit '[' :: Item.capAny :: Item.lit ']' :: Item.lit '}' :: Item.lit '+' :: Item.lit 'o' :: Item.lit 'c' :: Item.lit 'r' :: Item.lit '[' :: Item.capAny :: Item.lit ']' :: Item.lit ',' :: Item.lit 'v' :: Item.lit 'o' :: Item.lit 't' :: Item.lit 'e' :: Item.lit 'W' :: Item.lit 'e' :: Item.lit 'i' :: Item.lit 'g' :: Item.lit 'h' :: Item.lit 't' :: Item.lit '=' :: Item.capAny :: Item.lit ',' :: Item.lit 'l' :: Item.lit 'e' :: Item.lit 'v' :: Item.lit 'D' :: Item.lit 'i' :: Item.lit 's' :: Item.lit 't' :: Item.lit 'a' :: Item.lit 'n' :: Item.lit 'c' :: Item.lit 'e' :: Item.lit '=' :: Item.capDigits :: Item.lit ',' :: Item.lit 'd' :: Item.lit 'i' :: Item.lit 'c' :: Item.lit 't' :: Item.lit '=' :: [Item.capAny]) '@' t ((S ++ ':' :: '{' :: (M ++ '+' :: '[' :: (psStr Hp ++ ']' :: '}' :: '+' :: 'o' :: 'c' :: 'r' :: '[' :: (psStr Op ++ ']' :: ',' :: 'v' :: 'o' :: 't' :: 'e' :: 'W' :: 'e' :: 'i' :: 'g' :: 'h' :: 't' :: '=' :: (Ws ++ ',' :: 'l' :: 'e' :: 'v' :: 'D' :: 'i' :: 's' :: 't' :: 'a' :: 'n' :: 'c' :: 'e' :: '=' :: (Ns ++ ',' :: 'd' :: 'i' :: 'c' :: 't' :: '=' :: Dc)))))))
      [S, M, psStr Hp, psStr Op, Ws, Ns, Dc] ht hSSnot E0s
  exact E0

theorem makeCandidate_eval {s : List Char} {caps : List (List Char)}
    (h : searchT candidateTpl s = some caps) :
    MakeCandidate s =
      (if (atoi (caps.getD 6 [])).2 = false then none
       else
         match parseFloat32 (caps.getD 5 []) with
         | none => none
         | some w =>
           match str2ps (caps.getD 3 []) with
           | none => none
           | some hp =>
             match str2ps (caps.getD 4 []) with
             | none => none
             | some op =>
               some ({ Suggestion := caps.getD 1 [], Modern := caps.getD 2 [],
                       Dict := caps.getD 7 [], HistPatterns := hp,
                       OCRPatterns := op, Distance := (atoi (caps.getD 6 [])).1,
                       Weight := w }, caps.getD 0 [])) := by
  unfold MakeCandidate
  rw [h]

/-- C3 amended: the round trip holds for every ocr token free of newlines
and every grammar-safe Candidate: fields free of the grammar's
metacharacters, patterns with zero probability and in-range non-negative
positions, a canonical decimal weight text, and an in-range non-negative
distance.  `MakeCandidate` on `<ocrToken>@<Candidate.String rendering>`
succeeds and returns exactly the candidate and the ocr token. -/
theorem c3_candidate_roundtrip (t : List Char) (c : Candidate)
    (ht : ∀ x ∈ t, notNl x = true)
    (hS : fieldOK c.Suggestion = true) (hM : fieldOK c.Modern = true)
    (hDc : fieldOK c.Dict = true)
    (hH : ∀ p ∈ c.HistPatterns, patOK p) (hO : ∀ p ∈ c.OCRPatterns, patOK p)
    (hw : wfWeight (gFmt c.Weight) = true)
    (hd0 : 0 ≤ c.Distance) (hd1 : c.Distance ≤ (maxI : Int)) :
    MakeCandidate (t ++ '@' :: Candidate.fmt c) = some (c, t) := by
  obtain ⟨S, M, Dc, Hp, Op, Dist, W⟩ := c
  obtain ⟨Ws⟩ := W
  have hWc : ∀ x ∈ Ws, floatCharOK x = true := wfWeight_floatChars hw
  have hvf : validFloat Ws = true := wfWeight_validFloat hw
  have hfmt : Candidate.fmt ⟨S, M, Dc, Hp, Op, Dist, ⟨Ws⟩⟩ =
      (S ++ ':' :: '{' :: (M ++ '+' :: '[' ::
        (psStr Hp ++ ']' :: '}' :: '+' :: 'o' :: 'c' :: 'r' :: '[' ::
          (psStr Op ++ ']' :: ',' ::
            'v' :: 'o' :: 't' :: 'e' :: 'W' :: 'e' :: 'i' :: 'g' :: 'h' :: 't' :: '=' ::
              (Ws ++ ',' ::
                'l' :: 'e' :: 'v' :: 'D' :: 'i' :: 's' :: 't' :: 'a' :: 'n' :: 'c' :: 'e' :: '=' ::
                  (natDigits Dist.toNat ++ ',' ::
                    'd' :: 'i' :: 'c' :: 't' :: '=' :: Dc)))))) := by
    show (S ++ ':' :: '{' :: (M ++ '+' :: '[' ::
        (psStr Hp ++ ']' :: '}' :: '+' :: 'o' :: 'c' :: 'r' :: '[' ::
          (psStr Op ++ ']' :: ',' ::
            'v' :: 'o' :: 't' :: 'e' :: 'W' :: 'e' :: 'i' :: 'g' :: 'h' :: 't' :: '=' ::
              (Ws ++ ',' ::
                'l' :: 'e' :: 'v' :: 'D' :: 'i' :: 's' :: 't' :: 'a' :: 'n' :: 'c' :: 'e' :: '=' ::
                  (intFmt Dist ++ ',' ::
                    'd' :: 'i' :: 'c' :: 't' :: '=' :: Dc)))))) = _
    rw [intFmt_nonneg _ hd0]
  rw [hfmt]
  have hE := candidateTpl_exact t S M Dc Ws (natDigits Dist.toNat) Hp Op
    ht hS hM hDc hH hO hWc (natDigits_digits _)
  rw [makeCandidate_eval (searchT_of_match hE)]
  simp only [List.getD_cons_zero, List.getD_cons_succ]
  rw [atoi_natDigits Dist hd0 hd1]
  rw [if_neg (by simp)]
  rw [show parseFloat32 Ws = some ⟨Ws⟩ from by unfold parseFloat32; rw [if_pos hvf]]
  rw [str2ps_psStr hH, str2ps_psStr hO]

instance patOK_decidable (p : Pattern) : Decidable (patOK p) := by
  unfold patOK
  infer_instance

/-- Witness for C3's amended round trip at a concrete candidate. -/
theorem c3_candidate_roundtrip_witness :
    MakeCandidate (("theyl").data ++ '@' ::
        Candidate.fmt ⟨("theil").data, ("teil").data, ("d").data,
          [⟨("t").data, ("th").data, 0, 0⟩], [⟨("i").data, ("y").data, 0, 3⟩],
          1, ⟨("0.749764").data⟩⟩) =
      some (⟨("theil").data, ("teil").data, ("d").data,
        [⟨("t").data, ("th").data, 0, 0⟩], [⟨("i").data, ("y").data, 0, 3⟩],
        1, ⟨("0.749764").data⟩⟩, ("theyl").data) :=
  c3_candidate_roundtrip (("theyl").data) _ (by decide) (by decide) (by decide)
    (by decide) (by decide) (by decide) (by decide) (by decide) (by decide)

/-! ## The profile model and the global pattern tables (C6)

Go's `Profile` is `map[string]Interpretation`; it is modelled as an
association list (the map iteration order of the source is unspecified;
the list order plays its role here).  `mapSet` is the map assignment
`ret[key] = prob` and `assocFind` the map lookup. -/

/-- `Interpretation` of the profile model. -/
structure Interpretation where
  OCR : List Char
  N : Int
  Candidates : List Candidate
deriving DecidableEq, Repr

/-- `Profile`, as an association list from OCR token to interpretation. -/
def Profile := List (List Char × Interpretation)

/-- Map assignment `m[k] = v`: replace the binding in place or append. -/
def mapSet : List (List Char × ℚ) → List Char → ℚ → List (List Char × ℚ)
  | [], k, v => [(k, v)]
  | (k', v') :: rest, k, v =>
    if k' = k then (k, v) :: rest else (k', v') :: mapSet rest k v

/-- Map lookup. -/
def assocFind : List (List Char × ℚ) → List Char → Option ℚ
  | [], _ => none
  | (k', v') :: rest, k => if k' = k then some v' else assocFind rest k

/-- The key `p.Left + ":" + p.Right` the global tables use. -/
def patKey (p : Pattern) : List Char := p.Left ++ ':' :: p.Right

/-- `Profile.GlobalHistPatterns` from the source: three nested `range`
loops collecting `ret[left+":"+right] = prob` over every historical
pattern of every candidate of every interpretation. -/
def GlobalHistPatterns (p : Profile) : List (List Char × ℚ) :=
  p.foldl (fun ret kv =>
    kv.2.Candidates.foldl (fun r c =>
      c.HistPatterns.foldl (fun r2 q => mapSet r2 (patKey q) q.Prob) r) ret) []

/-- `Profile.GlobalOCRPatterns` from the source: the same scan over the
OCR error pattern lists. -/
def GlobalOCRPatterns (p : Profile) : List (List Char × ℚ) :=
  p.foldl (fun ret kv =>
    kv.2.Candidates.foldl (fun r c =>
      c.OCRPatterns.foldl (fun r2 q => mapSet r2 (patKey q) q.Prob) r) ret) []

/-- The scan order of the global tables, as a flat pattern list
(spec side: "every Pattern in every Candidate's list across every
Interpretation", in scan order). -/
def candScan (sel : Candidate → List Pattern) : List Candidate → List Pattern
  | [] => []
  | c :: t => sel c ++ candScan sel t

/-- The profile-level scan (spec side). -/
def profScan (sel : Candidate → List Pattern) : Profile → List Pattern
  | [] => []
  | kv :: rest => candScan sel kv.2.Candidates ++ profScan sel rest

theorem assocFind_mapSet (m : List (List Char × ℚ)) (k : List Char) (v : ℚ)
    (j : List Char) :
    assocFind (mapSet m k v) j = if k = j then some v else assocFind m j := by
  induction m with
  | nil =>
    show (if k = j then some v else none) = if k = j then some v else none
    rfl
  | cons a rest ih =>
    obtain ⟨k', v'⟩ := a
    by_cases hk : k' = k
    · subst hk
      rw [show mapSet ((k', v') :: rest) k' v = (k', v) :: rest from by
        simp [mapSet]]
      by_cases hj : k' = j
      · subst hj
        simp [assocFind]
      · show (if k' = j then some v else assocFind rest j) = _
        rw [if_neg hj, if_neg hj]
        show assocFind rest j = assocFind ((k', v') :: rest) j
        show assocFind rest j = if k' = j then some v' else assocFind rest j
        rw [if_neg hj]
    · rw [show mapSet ((k', v') :: rest) k v = (k', v') :: mapSet rest k v from by
        simp [mapSet, hk]]
      show (if k' = j then some v' else assocFind (mapSet rest k v) j) = _
      by_cases hj : k' = j
      · rw [if_pos hj, if_neg (by rw [← hj]; exact fun he => hk he.symm)]
        show some v' = assocFind ((k', v') :: rest) j
        show some v' = if k' = j then some v' else assocFind rest j
        rw [if_pos hj]
      · rw [if_neg hj, ih]
        by_cases hkj : k = j
        · rw [if_pos hkj, if_pos hkj]
        · rw [if_neg hkj, if_neg hkj]
          show assocFind rest j = assocFind ((k', v') :: rest) j
          show assocFind rest j = if k' = j then some v' else assocFind rest j
          rw [if_neg hj]

theorem find_foldPats (pats : List Pattern) (ret : List (List Char × ℚ))
    (k : List Char) :
    assocFind (pats.foldl (fun r2 q => mapSet r2 (patKey q) q.Prob) ret) k =
      match pats.reverse.find? (fun q => decide (patKey q = k)) with
      | some q => some q.Prob
      | none => assocFind ret k := by
  induction pats generalizing ret with
  | nil => rfl
  | cons q t ih =>
    rw [List.foldl_cons, ih]
    rw [show (q :: t).reverse = t.reverse ++ [q] from by simp]
    rw [List.find?_append]
    cases hfind : t.reverse.find? (fun q => decide (patKey q = k)) with
    | some q' => rfl
    | none =>
      show (assocFind (mapSet ret (patKey q) q.Prob) k) =
        (match [q].find? (fun q => decide (patKey q = k)) with
         | some q2 => some q2.Prob
         | none => assocFind ret k)
      rw [assocFind_mapSet]
      by_cases hq : patKey q = k
      · rw [if_pos hq]
        rw [show [q].find? (fun q => decide (patKey q = k)) = some q from by
          simp [List.find?, hq]]
      · rw [if_neg hq]
        rw [show [q].find? (fun q => decide (patKey q = k)) = none from by
          simp [List.find?, hq]]

theorem find_foldCands (sel : Candidate → List Pattern)
    (cands : List Candidate) (ret : List (List Char × ℚ)) (k : List Char) :
    assocFind (cands.foldl (fun r c =>
        (sel c).foldl (fun r2 q => mapSet r2 (patKey q) q.Prob) r) ret) k =
      match (candScan sel cands).reverse.find? (fun q => decide (patKey q = k)) with
      | some q => some q.Prob
      | none => assocFind ret k := by
  induction cands generalizing ret with
  | nil => rfl
  | cons c t ih =>
    rw [List.foldl_cons, ih]
    rw [show candScan sel (c :: t) = sel c ++ candScan sel t from rfl]
    rw [List.reverse_append, List.find?_append]
    cases hfind : (candScan sel t).reverse.find? (fun q => decide (patKey q = k)) with
    | some q' => rfl
    | none =>
      rw [find_foldPats]
      cases hfind2 : (sel c).reverse.find? (fun q => decide (patKey q = k)) with
      | some q' => rfl
      | none => rfl

theorem find_profFold (sel : Candidate → List Pattern) (p : Profile)
    (ret : List (List Char × ℚ)) (k : List Char) :
    assocFind (p.foldl (fun r kv =>
        kv.2.Candidates.foldl (fun r2 c =>
          (sel c).foldl (fun r3 q => mapSet r3 (patKey q) q.Prob) r2) r) ret) k =
      match (profScan sel p).reverse.find? (fun q => decide (patKey q = k)) with
      | some q => some q.Prob
      | none => assocFind ret k := by
  induction p generalizing ret with
  | nil => rfl
  | cons kv t ih =>
    rw [List.foldl_cons, ih]
    rw [show profScan sel (kv :: t) =
      candScan sel kv.2.Candidates ++ profScan sel t from rfl]
    rw [List.reverse_append, List.find?_append]
    cases hfind : (profScan sel t).reverse.find? (fun q => decide (patKey q = k)) with
    | some q' => rfl
    | none =>
      rw [find_foldCands]
      cases hfind2 : (candScan sel kv.2.Candidates).reverse.find?
          (fun q => decide (patKey q = k)) with
      | some q' => rfl
      | none => rfl

/-- C6: for every Profile and key, the historical table binds the key iff
some pattern in the scan has that key, and the bound value is the `Prob`
of the pattern with that key the scan visits last — and the same for the
OCR table.  (`.reverse.find?` picks exactly the last matching pattern of
the scan; in particular the key set is the image of `patKey` over the
scan, and every bound value is the `Prob` of some pattern with that
key.) -/
theorem c6_global_pattern_tables (p : Profile) (k : List Char) :
    assocFind (GlobalHistPatterns p) k =
      ((profScan (fun c => c.HistPatterns) p).reverse.find?
        (fun q => decide (patKey q = k))).map Pattern.Prob ∧
    assocFind (GlobalOCRPatterns p) k =
      ((profScan (fun c => c.OCRPatterns) p).reverse.find?
        (fun q => decide (patKey q = k))).map Pattern.Prob := by
  have h1 := find_profFold (fun c : Candidate => c.HistPatterns) p [] k
  have h2 := find_profFold (fun c : Candidate => c.OCRPatterns) p [] k
  have h1' : assocFind (GlobalHistPatterns p) k =
      match (profScan (fun c : Candidate => c.HistPatterns) p).reverse.find?
        (fun q => decide (patKey q = k)) with
      | some q => some q.Prob
      | none => assocFind [] k := h1
  have h2' : assocFind (GlobalOCRPatterns p) k =
      match (profScan (fun c : Candidate => c.OCRPatterns) p).reverse.find?
        (fun q => decide (patKey q = k)) with
      | some q => some q.Prob
      | none => assocFind [] k := h2
  constructor
  · rw [h1']
    cases (profScan (fun c : Candidate => c.HistPatterns) p).reverse.find?
        (fun q => decide (patKey q = k)) with
    | some q => rfl
    | none => rfl
  · rw [h2']
    cases (profScan (fun c : Candidate => c.OCRPatterns) p).reverse.find?
        (fun q => decide (patKey q = k)) with
    | some q => rfl
    | none => rfl

/-! ## The stderr line buffer (C7)

`logwriter.Write` appends the incoming bytes to its buffer and, while the
buffer contains a newline (`bytes.IndexByte`), logs the prefix before the
first newline and keeps the rest.  The state is the buffer; the emitted
lines are returned in emission order (each is one `l.logger.Log` call). -/

/-- Split at the first newline: the content before it and the rest after
it, or `none` when the buffer has no newline (`IndexByte == -1`). -/
def splitFirstNl : List Char → Option (List Char × List Char)
  | [] => none
  | c :: rest =>
    if c = '\n' then some ([], rest)
    else (splitFirstNl rest).map (fun pr => (c :: pr.1, pr.2))

theorem splitFirstNl_decomp :
    ∀ (b : List Char) {l r : List Char}, splitFirstNl b = some (l, r) →
      b = l ++ '\n' :: r ∧ '\n' ∉ l := by
  intro b
  induction b with
  | nil => intro l r h; cases h
  | cons c rest ih =>
    intro l r h
    by_cases hc : c = '\n'
    · subst hc
      rw [show splitFirstNl ('\n' :: rest) = some ([], rest) from by
        simp [splitFirstNl]] at h
      cases h
      exact ⟨rfl, by simp⟩
    · rw [show splitFirstNl (c :: rest) =
        (splitFirstNl rest).map (fun pr => (c :: pr.1, pr.2)) from by
        simp [splitFirstNl, hc]] at h
      cases hrec : splitFirstNl rest with
      | none => rw [hrec] at h; cases h
      | some pr =>
        rw [hrec] at h
        obtain ⟨l', r'⟩ := pr
        simp at h
        obtain ⟨hl, hr⟩ := h
        obtain ⟨hdec, hnl⟩ := ih hrec
        subst hl
        subst hr
        subst hdec
        refine ⟨rfl, ?_⟩
        intro hmem
        rcases List.mem_cons.mp hmem with h1 | h1
        · exact hc h1.symm
        · exact hnl h1

theorem splitFirstNl_none :
    ∀ (b : List Char), splitFirstNl b = none → '\n' ∉ b := by
  intro b
  induction b with
  | nil => intro _ h; simp at h
  | cons c rest ih =>
    intro h hmem
    by_cases hc : c = '\n'
    · subst hc
      rw [show splitFirstNl ('\n' :: rest) = some ([], rest) from by
        simp [splitFirstNl]] at h
      cases h
    · rw [show splitFirstNl (c :: rest) =
        (splitFirstNl rest).map (fun pr => (c :: pr.1, pr.2)) from by
        simp [splitFirstNl, hc]] at h
      cases hrec : splitFirstNl rest with
      | some pr => rw [hrec] at h; cases h
      | none =>
        rcases List.mem_cons.mp hmem with h1 | h1
        · exact hc h1.symm
        · exact ih hrec h1

/-- The drain loop of `logwriter.Write`, fuel-indexed (each iteration
consumes at least one buffered byte, so the buffer length is enough
fuel): emitted lines in order, and the final buffer. -/
def drainAux : Nat → List Char → List (List Char) × List Char
  | 0, b => ([], b)
  | fuel + 1, b =>
    match splitFirstNl b with
    | none => ([], b)
    | some (line, rest) =>
      ((drainAux fuel rest).1.cons line, (drainAux fuel rest).2)

/-- The drain loop of `logwriter.Write`. -/
def drain (b : List Char) : List (List Char) × List Char := drainAux b.length b

/-- `logwriter.Write`: append the chunk, drain; returns the new buffer
and the logged lines in order. -/
def logwriterWrite (buffer p : List Char) : List Char × List (List Char) :=
  ((drain (buffer ++ p)).2, (drain (buffer ++ p)).1)

/-- A whole sequence of `Write` calls from a given buffer state; returns
the final buffer and every logged line in order. -/
def writeAll : List (List Char) → List Char → List Char × List (List Char)
  | [], buf => (buf, [])
  | chunk :: rest, buf =>
    ((writeAll rest (logwriterWrite buf chunk).1).1,
      (logwriterWrite buf chunk).2 ++ (writeAll rest (logwriterWrite buf chunk).1).2)

theorem drainAux_spec :
    ∀ (fuel : Nat) (b : List Char), b.length ≤ fuel →
      ((drainAux fuel b).1.map (fun l => l ++ ['\n'])).flatten ++ (drainAux fuel b).2 = b ∧
      (∀ l ∈ (drainAux fuel b).1, '\n' ∉ l) ∧ '\n' ∉ (drainAux fuel b).2 := by
  intro fuel
  induction fuel with
  | zero =>
    intro b hb
    have : b = [] := List.length_eq_zero.mp (by omega)
    subst this
    exact ⟨rfl, by simp [drainAux], by simp [drainAux]⟩
  | succ f ih =>
    intro b hb
    cases hsplit : splitFirstNl b with
    | none =>
      rw [show drainAux (f + 1) b = ([], b) from by
        simp only [drainAux]; rw [hsplit]]
      exact ⟨rfl, by simp, splitFirstNl_none b hsplit⟩
    | some pr =>
      obtain ⟨line, rest⟩ := pr
      obtain ⟨hdec, hnl⟩ := splitFirstNl_decomp b hsplit
      rw [show drainAux (f + 1) b =
        ((drainAux f rest).1.cons line, (drainAux f rest).2) from by
        simp only [drainAux]; rw [hsplit]]
      have hlen : rest.length ≤ f := by
        have : b.length = line.length + (rest.length + 1) := by
          rw [hdec]; simp [List.length_append]
        omega
      obtain ⟨ih1, ih2, ih3⟩ := ih rest hlen
      refine ⟨?_, ?_, ih3⟩
      · show ((line ++ ['\n']) :: (drainAux f rest).1.map (fun l => l ++ ['\n'])).flatten ++
          (drainAux f rest).2 = b
        rw [List.flatten_cons, hdec]
        rw [List.append_assoc, ih1]
        simp
      · intro l hl
        rcases List.mem_cons.mp hl with rfl | hmem
        · exact hnl
        · exact ih2 l hmem

theorem writeAll_spec :
    ∀ (chunks : List (List Char)) (buf : List Char), '\n' ∉ buf →
      ((writeAll chunks buf).2.map (fun l => l ++ ['\n'])).flatten ++ (writeAll chunks buf).1 =
        buf ++ chunks.flatten ∧
      (∀ l ∈ (writeAll chunks buf).2, '\n' ∉ l) ∧ '\n' ∉ (writeAll chunks buf).1 := by
  intro chunks
  induction chunks with
  | nil =>
    intro buf hbuf
    exact ⟨by simp [writeAll], by simp [writeAll], hbuf⟩
  | cons chunk rest ih =>
    intro buf _
    obtain ⟨hd1, hd2, hd3⟩ := drainAux_spec (buf ++ chunk).length (buf ++ chunk)
      (Nat.le_refl _)
    obtain ⟨ih1, ih2, ih3⟩ := ih (drain (buf ++ chunk)).2 hd3
    rw [show writeAll (chunk :: rest) buf =
      ((writeAll rest (drain (buf ++ chunk)).2).1,
        (drain (buf ++ chunk)).1 ++ (writeAll rest (drain (buf ++ chunk)).2).2)
      from rfl]
    have hd1' : ((drain (buf ++ chunk)).1.map (fun l => l ++ ['\n'])).flatten ++
        (drain (buf ++ chunk)).2 = buf ++ chunk := hd1
    refine ⟨?_, ?_, ih3⟩
    · show (((drain (buf ++ chunk)).1 ++ (writeAll rest (drain (buf ++ chunk)).2).2).map
        (fun l => l ++ ['\n'])).flatten ++ (writeAll rest (drain (buf ++ chunk)).2).1 =
        buf ++ (chunk :: rest).flatten
      rw [List.map_append, List.flatten_append, List.append_assoc, ih1]
      rw [← List.append_assoc, hd1']
      simp
    · intro l hl
      rcases List.mem_append.mp hl with h1 | h1
      · exact hd2 l h1
      · exact ih2 l h1

/-- C7: for every sequence of byte chunks written from a fresh buffer,
the logged lines are, in order, exactly the newline-terminated lines of
the concatenated stream — formally, appending a newline to each logged
line and then the retained buffer reassembles the concatenation, while
neither the logged lines nor the retained buffer contain a newline (this
pins the logged lines and the final partial line uniquely) — so a final
partial line is retained in the buffer and never delivered. -/
theorem c7_logwriter_lines (chunks : List (List Char)) :
    ((writeAll chunks []).2.map (fun l => l ++ ['\n'])).flatten ++ (writeAll chunks []).1 =
      chunks.flatten ∧
    (∀ l ∈ (writeAll chunks []).2, '\n' ∉ l) ∧ '\n' ∉ (writeAll chunks []).1 := by
  have := writeAll_spec chunks [] (by simp)
  simpa using this

/-! ## The token encoder (C9) -/

/-- `Token` of the driver. -/
structure Token where
  LE : List Char
  OCR : List Char
  COR : List Char
deriving DecidableEq, Repr

/-- `Token.String` from the source: `#<LE>` when the lexicon entry is
non-empty, else `<OCR>:<COR>`. -/
def Token.fmt (t : Token) : List Char :=
  if t.LE.length > 0 then '#' :: t.LE else t.OCR ++ ':' :: t.COR

/-- C9: the token encoder renders `#<lexiconText>` when the token is a
lexicon entry (LE non-empty), and `<ocrText>:<correctionText>` otherwise;
with no correction the rendering is `<ocrText>:` with a trailing colon. -/
theorem c9_token_encoding (t : Token) :
    (t.LE ≠ [] → Token.fmt t = '#' :: t.LE) ∧
    (t.LE = [] → Token.fmt t = t.OCR ++ ':' :: t.COR) ∧
    (t.LE = [] → t.COR = [] → Token.fmt t = t.OCR ++ [':']) := by
  refine ⟨?_, ?_, ?_⟩
  · intro h
    unfold Token.fmt
    rw [if_pos (by cases hle : t.LE with
      | nil => exact absurd hle h
      | cons a b => simp)]
  · intro h
    unfold Token.fmt
    rw [if_neg (by rw [h]; simp)]
  · intro h hc
    unfold Token.fmt
    rw [if_neg (by rw [h]; simp), hc]

/-- Witness for C9 at concrete tokens. -/
theorem c9_token_encoding_witness :
    Token.fmt ⟨("lex").data, [], []⟩ = '#' :: ("lex").data ∧
    Token.fmt ⟨[], ("word").data, []⟩ = ("word").data ++ [':'] :=
  ⟨(c9_token_encoding _).1 (by decide),
   (c9_token_encoding _).2.2 (by decide) (by decide)⟩

/-! ## Streamed-mode candidate consumption (C8)

The reader `RunFunc` installs scans the subprocess output line by line,
decodes each with `MakeCandidate` and calls the callback; a decode error
or a callback error returns immediately.  The subprocess output is the
line list; the callback is a pure function returning `true` for a
non-nil error (the model's callbacks are stateless, so recording each
invocation in a trace captures exactly the calls made, in order); the
`Bool` result is `true` iff the reader returns a nil error (on an
in-memory line list the scanner's final `s.Err()` is nil).  `run` wraps
a non-nil reader error into a non-nil error of its own, so `false`
models a failing `RunFunc` call. -/

/-- The scan loop of `RunFunc`: the trace of callback invocations (in
order) and whether the reader finished without error. -/
def runFuncLoop (f : List Char → Candidate → Bool) :
    List (List Char) → List (List Char × Candidate) × Bool
  | [] => ([], true)
  | line :: rest =>
    match MakeCandidate line with
    | none => ([], false)
    | some (cand, ocr) =>
      if f ocr cand then ([(ocr, cand)], false)
      else
        ((runFuncLoop f rest).1.cons (ocr, cand), (runFuncLoop f rest).2)

/-- Spec side: a line is consumed without stopping when it decodes and
its callback reports no error. -/
def lineOk (f : List Char → Candidate → Bool) (l : List Char) : Bool :=
  match MakeCandidate l with
  | none => false
  | some (cand, ocr) => !(f ocr cand)

/-- Spec side, following the claim's words: the callback invocations
are, in emission order, one per line of the maximal prefix of lines that
decode and whose callbacks succeed, plus one more at the first bad line
when that line decoded and it was its callback that failed; no
invocation occurs for any later line. -/
def specInvs (f : List Char → Candidate → Bool) (lines : List (List Char)) :
    List (List Char × Candidate) :=
  ((lines.takeWhile (lineOk f)).filterMap
    (fun l => (MakeCandidate l).map (fun pr => (pr.2, pr.1)))) ++
  (match lines.dropWhile (lineOk f) with
   | [] => []
   | bad :: _ =>
     match MakeCandidate bad with
     | none => []
     | some (cand, ocr) => [(ocr, cand)])

/-- Spec side: the call succeeds iff no line fails to decode and no
callback errors. -/
def specOk (f : List Char → Candidate → Bool) (lines : List (List Char)) : Bool :=
  (lines.dropWhile (lineOk f)).isEmpty

theorem runFuncLoop_ok (f : List Char → Candidate → Bool)
    (lines : List (List Char)) :
    (runFuncLoop f lines).2 = specOk f lines := by
  induction lines with
  | nil => rfl
  | cons line rest ih =>
    unfold specOk
    cases hmc : MakeCandidate line with
    | none =>
      have hok : lineOk f line = false := by
        unfold lineOk
        rw [hmc]
      rw [show runFuncLoop f (line :: rest) = ([], false) from by
        simp only [runFuncLoop]; rw [hmc]]
      rw [List.dropWhile_cons, hok]
      rfl
    | some pr =>
      obtain ⟨cand, ocr⟩ := pr
      by_cases hf : f ocr cand = true
      · have hok : lineOk f line = false := by
          unfold lineOk
          rw [hmc]
          show (!(f ocr cand)) = false
          rw [hf]
          rfl
        rw [show runFuncLoop f (line :: rest) = ([(ocr, cand)], false) from by
          simp only [runFuncLoop]; rw [hmc]; simp [hf]]
        rw [List.dropWhile_cons, hok]
        rfl
      · have hf' : f ocr cand = false := by
          cases h : f ocr cand
          · rfl
          · exact absurd h hf
        have hok : lineOk f line = true := by
          unfold lineOk
          rw [hmc]
          show (!(f ocr cand)) = true
          rw [hf']
          rfl
        rw [show runFuncLoop f (line :: rest) =
          ((runFuncLoop f rest).1.cons (ocr, cand), (runFuncLoop f rest).2) from by
          simp only [runFuncLoop]; rw [hmc]; simp [hf']]
        rw [List.dropWhile_cons, hok]
        simp only [if_true]
        exact ih

theorem runFuncLoop_trace (f : List Char → Candidate → Bool)
    (lines : List (List Char)) :
    (runFuncLoop f lines).1 = specInvs f lines := by
  induction lines with
  | nil => rfl
  | cons line rest ih =>
    unfold specInvs
    cases hmc : MakeCandidate line with
    | none =>
      have hok : lineOk f line = false := by
        unfold lineOk
        rw [hmc]
      rw [show runFuncLoop f (line :: rest) = ([], false) from by
        simp only [runFuncLoop]; rw [hmc]]
      rw [List.takeWhile_cons, hok, List.dropWhile_cons, hok]
      simp only [Bool.false_eq_true, if_false, List.filterMap_nil, List.nil_append]
      rw [hmc]
    | some pr =>
      obtain ⟨cand, ocr⟩ := pr
      by_cases hf : f ocr cand = true
      · have hok : lineOk f line = false := by
          unfold lineOk
          rw [hmc]
          show (!(f ocr cand)) = false
          rw [hf]
          rfl
        rw [show runFuncLoop f (line :: rest) = ([(ocr, cand)], false) from by
          simp only [runFuncLoop]; rw [hmc]; simp [hf]]
        rw [List.takeWhile_cons, hok, List.dropWhile_cons, hok]
        simp only [Bool.false_eq_true, if_false, List.filterMap_nil, List.nil_append]
        rw [hmc]
      · have hf' : f ocr cand = false := by
          cases h : f ocr cand
          · rfl
          · exact absurd h hf
        have hok : lineOk f line = true := by
          unfold lineOk
          rw [hmc]
          show (!(f ocr cand)) = true
          rw [hf']
          rfl
        rw [show runFuncLoop f (line :: rest) =
          ((runFuncLoop f rest).1.cons (ocr, cand), (runFuncLoop f rest).2) from by
          simp only [runFuncLoop]; rw [hmc]; simp [hf']]
        rw [List.takeWhile_cons, hok, List.dropWhile_cons, hok]
        simp only [if_true, List.filterMap_cons]
        rw [hmc]
        show (ocr, cand) :: (runFuncLoop f rest).1 = _
        rw [ih]
        unfold specInvs
        simp

/-- C8: in streamed mode the reader's callback invocations are, in
emission order, exactly one per line up to and including the first line
that fails to decode or whose callback errors (no invocation for a line
that fails to decode, none for any later line), and the reader returns
an error unless every line was consumed. -/
theorem c8_streamed_consumption (f : List Char → Candidate → Bool)
    (lines : List (List Char)) :
    runFuncLoop f lines = (specInvs f lines, specOk f lines) := by
  have h1 := runFuncLoop_trace f lines
  have h2 := runFuncLoop_ok f lines
  cases hr : runFuncLoop f lines with
  | mk tr ok =>
    rw [hr] at h1 h2
    dsimp only at h1 h2
    rw [h1, h2]

/-! ## JSON decoding of the profile (C5)

`Profiler.Run` decodes the subprocess output with
`json.NewDecoder(r).Decode(&profile)` into a `var profile Profile` and
`run` wraps any non-nil error of that reader function into a non-nil
error of its own.  `encoding/json` is standard-library code absent from
the repository, so the decoder below is modelled from its documented
behaviour: `Decode` reads the next JSON value from the stream and
returns `io.EOF` - a non-nil error - when the input holds no value;
unmarshalling `null` into a map, slice or string leaves the zero value
in place (nil map, nil slice) and into other fields has no effect;
an object decodes into the map key by key, later duplicates
overwriting; struct fields are matched by name, case-insensitively;
unknown keys are ignored; a value of the wrong kind is an error.  The
Go decoder records the first such error and keeps scanning, but its
caller here observes only whether the returned error is nil, so the
model collapses decoding to an `Option` that is `none` exactly when
`Decode` returns a non-nil error.  `float64`/`float32` number values
follow the file's conventions: `Prob` is exact (`ℚ`), `Weight` keeps
the literal text (`GoF`). -/

/-- A parsed JSON value.  Numbers keep their raw literal text; how a
number converts depends on the Go type it lands in. -/
inductive Jval where
  | jnull
  | jbool (b : Bool)
  | jnum (raw : List Char)
  | jstr (s : List Char)
  | jarr (elems : List Jval)
  | jobj (fields : List (List Char × Jval))

/-- JSON insignificant whitespace. -/
def jsWs (c : Char) : Bool := c = ' ' || c = '\t' || c = '\n' || c = '\r'

/-- Skip insignificant whitespace. -/
def skipWs (s : List Char) : List Char := s.dropWhile jsWs

/-- Value of a hexadecimal digit. -/
def hexVal (c : Char) : Option Nat :=
  if isDig c then some (c.toNat - 48)
  else if 'a' ≤ c ∧ c ≤ 'f' then some (c.toNat - 87)
  else if 'A' ≤ c ∧ c ≤ 'F' then some (c.toNat - 70)
  else none

/-- Body of a JSON string after the opening quote: decoded characters
and the remaining input after the closing quote.  Escapes follow the
JSON grammar; a `\uXXXX` escape yields the code point (surrogate-pair
recombination is outside the fragment this development exercises, as is
Go's substitution of invalid sequences).  Fuel is structural; the
callers pass the input length. -/
def parseStrAux : Nat → List Char → Option (List Char × List Char)
  | 0, _ => none
  | _ + 1, [] => none
  | fuel + 1, c :: rest =>
    if c = '"' then some ([], rest)
    else if c.toNat < 32 then none
    else if c = '\\' then
      match rest with
      | [] => none
      | e :: rest2 =>
        let dec : Option (Char × List Char) :=
          if e = '"' then some ('"', rest2)
          else if e = '\\' then some ('\\', rest2)
          else if e = '/' then some ('/', rest2)
          else if e = 'b' then some (Char.ofNat 8, rest2)
          else if e = 'f' then some (Char.ofNat 12, rest2)
          else if e = 'n' then some ('\n', rest2)
          else if e = 'r' then some ('\r', rest2)
          else if e = 't' then some ('\t', rest2)
          else if e = 'u' then
            match rest2 with
            | h1 :: h2 :: h3 :: h4 :: rest3 =>
              match hexVal h1, hexVal h2, hexVal h3, hexVal h4 with
              | some a, some b, some c2, some d =>
                some (Char.ofNat (((a * 16 + b) * 16 + c2) * 16 + d), rest3)
              | _, _, _, _ => none
            | _ => none
          else none
        match dec with
        | none => none
        | some (ch, rest3) =>
          match parseStrAux fuel rest3 with
          | none => none
          | some (s, r) => some (ch :: s, r)
    else
      match parseStrAux fuel rest with
      | none => none
      | some (s, r) => some (c :: s, r)

/-- A JSON number literal: `-? (0 | [1-9][0-9]*) (. [0-9]+)?
([eE][+-]?[0-9]+)?`; returns the raw literal and the rest. -/
def parseNum (s : List Char) : Option (List Char × List Char) :=
  let sg : List Char × List Char :=
    match s with
    | '-' :: u => (['-'], u)
    | _ => ([], s)
  let ds := sg.2.takeWhile isDig
  if ds.isEmpty then none
  else if 1 < ds.length ∧ ds.headD ' ' = '0' then none
  else
    let r1 := sg.2.drop ds.length
    let fracRes : Option (List Char × List Char) :=
      match r1 with
      | '.' :: u =>
        let fs := u.takeWhile isDig
        if fs.isEmpty then none else some ('.' :: fs, u.drop fs.length)
      | _ => some ([], r1)
    match fracRes with
    | none => none
    | some (fp, r2) =>
      let expRes : Option (List Char × List Char) :=
        match r2 with
        | [] => some ([], r2)
        | e :: u =>
          if e = 'e' ∨ e = 'E' then
            let sg2 : List Char × List Char :=
              match u with
              | '+' :: w => (['+'], w)
              | '-' :: w => (['-'], w)
              | _ => ([], u)
            let es := sg2.2.takeWhile isDig
            if es.isEmpty then none
            else some (e :: (sg2.1 ++ es), sg2.2.drop es.length)
          else some ([], r2)
      match expRes with
      | none => none
      | some (ep, r3) => some (sg.1 ++ ds ++ fp ++ ep, r3)

/-- Comma-separated JSON values up to a closing `]`; the value parser is
passed in, so the recursion here is on this list's own fuel. -/
def parseElems (pv : List Char → Option (Jval × List Char)) :
    Nat → List Char → Option (List Jval × List Char)
  | 0, _ => none
  | fuel + 1, s =>
    match pv s with
    | none => none
    | some (v, r) =>
      match skipWs r with
      | ',' :: r2 =>
        match parseElems pv fuel r2 with
        | none => none
        | some (vs, r3) => some (v :: vs, r3)
      | ']' :: r2 => some ([v], r2)
      | _ => none

/-- Comma-separated `"key": value` members up to a closing brace. -/
def parseFields (pv : List Char → Option (Jval × List Char)) :
    Nat → List Char → Option (List (List Char × Jval) × List Char)
  | 0, _ => none
  | fuel + 1, s =>
    match skipWs s with
    | '"' :: r =>
      match parseStrAux (r.length + 1) r with
      | none => none
      | some (k, r2) =>
        match skipWs r2 with
        | ':' :: r3 =>
          match pv r3 with
          | none => none
          | some (v, r4) =>
            match skipWs r4 with
            | ',' :: r5 =>
              match parseFields pv fuel r5 with
              | none => none
              | some (fs, r6) => some ((k, v) :: fs, r6)
            | '}' :: r5 => some ([(k, v)], r5)
            | _ => none
        | _ => none
    | _ => none

/-- One JSON value: `None` on empty input (after whitespace) or a
syntax error.  Fuel bounds the nesting depth; every level consumes at
least one character, so input length suffices. -/
def parseVal : Nat → List Char → Option (Jval × List Char)
  | 0, _ => none
  | fuel + 1, s =>
    match skipWs s with
    | [] => none
    | c :: rest =>
      if c = 'n' then
        match rest with
        | 'u' :: 'l' :: 'l' :: r => some (.jnull, r)
        | _ => none
      else if c = 't' then
        match rest with
        | 'r' :: 'u' :: 'e' :: r => some (.jbool true, r)
        | _ => none
      else if c = 'f' then
        match rest with
        | 'a' :: 'l' :: 's' :: 'e' :: r => some (.jbool false, r)
        | _ => none
      else if c = '"' then
        match parseStrAux (rest.length + 1) rest with
        | none => none
        | some (str, r) => some (.jstr str, r)
      else if c = '{' then
        match skipWs rest with
        | '}' :: r => some (.jobj [], r)
        | _ =>
          match parseFields (parseVal fuel) (rest.length + 1) rest with
          | none => none
          | some (fs, r) => some (.jobj fs, r)
      else if c = '[' then
        match skipWs rest with
        | ']' :: r => some (.jarr [], r)
        | _ =>
          match parseElems (parseVal fuel) (rest.length + 1) rest with
          | none => none
          | some (vs, r) => some (.jarr vs, r)
      else if c = '-' ∨ isDig c then
        match parseNum (c :: rest) with
        | none => none
        | some (raw, r) => some (.jnum raw, r)
      else none

/-- Case-insensitive field-name match (Go matches JSON keys to struct
field names with `EqualFold`; the struct names here are ASCII). -/
def eqCI (a b : List Char) : Bool :=
  a.map Char.toLower == b.map Char.toLower

/-- A JSON value landing in a `string` field: `null` has no effect. -/
def decStrField (v : Jval) (cur : List Char) : Option (List Char) :=
  match v with
  | .jnull => some cur
  | .jstr s => some s
  | _ => none

/-- A number literal landing in an `int` field: `strconv.ParseInt`,
digits only, `int64` range. -/
def goInt (raw : List Char) : Option Int :=
  match raw with
  | '-' :: ds =>
    if (!ds.isEmpty && ds.all isDig) = true then
      if digitsToNat ds ≤ maxI + 1 then some (-(digitsToNat ds : Int)) else none
    else none
  | ds =>
    if (!ds.isEmpty && ds.all isDig) = true then
      if digitsToNat ds ≤ maxI then some (digitsToNat ds : Int) else none
    else none

/-- A JSON value landing in an `int` field. -/
def decIntField (v : Jval) (cur : Int) : Option Int :=
  match v with
  | .jnull => some cur
  | .jnum raw => goInt raw
  | _ => none

/-- Exact rational value of a JSON number literal (the file's model of
`float64`). -/
def decQ (raw : List Char) : Option ℚ :=
  let sg : ℚ × List Char :=
    match raw with
    | '-' :: u => (-1, u)
    | _ => (1, raw)
  let ds := sg.2.takeWhile isDig
  let r1 := sg.2.drop ds.length
  let fr : List Char × List Char :=
    match r1 with
    | '.' :: u => (u.takeWhile isDig, u.drop (u.takeWhile isDig).length)
    | _ => ([], r1)
  let ex : Option Int :=
    match fr.2 with
    | [] => some 0
    | c :: u =>
      if c = 'e' ∨ c = 'E' then
        match u with
        | '-' :: w =>
          if (!w.isEmpty && w.all isDig) = true then some (-(digitsToNat w : Int)) else none
        | '+' :: w =>
          if (!w.isEmpty && w.all isDig) = true then some (digitsToNat w : Int) else none
        | w =>
          if (!w.isEmpty && w.all isDig) = true then some (digitsToNat w : Int) else none
      else none
  if ds.isEmpty then none
  else
    match ex with
    | none => none
    | some e =>
      some (sg.1 * ((digitsToNat (ds ++ fr.1) : ℚ) / (10 : ℚ) ^ fr.1.length) * (10 : ℚ) ^ e)

/-- A JSON value landing in a `float64` field. -/
def decQField (v : Jval) (cur : ℚ) : Option ℚ :=
  match v with
  | .jnull => some cur
  | .jnum raw =>
    match decQ raw with
    | none => none
    | some q => some q
  | _ => none

/-- A JSON value landing in a `float32` field: the decoder runs
`strconv.ParseFloat(s, 32)` on the literal, modelled by
`parseFloat32`. -/
def decGoFField (v : Jval) (cur : GoF) : Option GoF :=
  match v with
  | .jnull => some cur
  | .jnum raw => parseFloat32 raw
  | _ => none

/-- The zero `Pattern`. -/
def zeroPattern : Pattern := ⟨[], [], 0, 0⟩

/-- Decode a JSON value into a `Pattern` (struct: object fields matched
by name; `null` leaves the zero value). -/
def decPattern : Jval → Option Pattern
  | .jnull => some zeroPattern
  | .jobj fs => decPatternFields fs zeroPattern
  | _ => none
where
  decPatternFields : List (List Char × Jval) → Pattern → Option Pattern
    | [], acc => some acc
    | (k, v) :: rest, acc =>
      if eqCI k (("Left").data) then
        match decStrField v acc.Left with
        | none => none
        | some s => decPatternFields rest ⟨s, acc.Right, acc.Prob, acc.Pos⟩
      else if eqCI k (("Right").data) then
        match decStrField v acc.Right with
        | none => none
        | some s => decPatternFields rest ⟨acc.Left, s, acc.Prob, acc.Pos⟩
      else if eqCI k (("Prob").data) then
        match decQField v acc.Prob with
        | none => none
        | some q => decPatternFields rest ⟨acc.Left, acc.Right, q, acc.Pos⟩
      else if eqCI k (("Pos").data) then
        match decIntField v acc.Pos with
        | none => none
        | some n => decPatternFields rest ⟨acc.Left, acc.Right, acc.Prob, n⟩
      else decPatternFields rest acc

/-- A JSON value landing in a `[]Pattern` field: `null` makes the slice
nil, an array decodes element by element. -/
def decPatterns (v : Jval) : Option (List Pattern) :=
  match v with
  | .jnull => some []
  | .jarr vs => decPatternList vs
  | _ => none
where
  decPatternList : List Jval → Option (List Pattern)
    | [] => some []
    | v :: rest =>
      match decPattern v, decPatternList rest with
      | some p, some ps => some (p :: ps)
      | _, _ => none

/-- The zero `Candidate` (a zero `float32` renders as `0` under
`%g`). -/
def zeroCandidate : Candidate := ⟨[], [], [], [], [], 0, ⟨['0']⟩⟩

/-- Decode a JSON value into a `Candidate`. -/
def decCandidate : Jval → Option Candidate
  | .jnull => some zeroCandidate
  | .jobj fs => decCandidateFields fs zeroCandidate
  | _ => none
where
  decCandidateFields : List (List Char × Jval) → Candidate → Option Candidate
    | [], acc => some acc
    | (k, v) :: rest, acc =>
      if eqCI k (("Suggestion").data) then
        match decStrField v acc.Suggestion with
        | none => none
        | some s =>
          decCandidateFields rest
            ⟨s, acc.Modern, acc.Dict, acc.HistPatterns, acc.OCRPatterns,
              acc.Distance, acc.Weight⟩
      else if eqCI k (("Modern").data) then
        match decStrField v acc.Modern with
        | none => none
        | some s =>
          decCandidateFields rest
            ⟨acc.Suggestion, s, acc.Dict, acc.HistPatterns, acc.OCRPatterns,
              acc.Distance, acc.Weight⟩
      else if eqCI k (("Dict").data) then
        match decStrField v acc.Dict with
        | none => none
        | some s =>
          decCandidateFields rest
            ⟨acc.Suggestion, acc.Modern, s, acc.HistPatterns, acc.OCRPatterns,
              acc.Distance, acc.Weight⟩
      else if eqCI k (("HistPatterns").data) then
        match decPatterns v with
        | none => none
        | some ps =>
          decCandidateFields rest
            ⟨acc.Suggestion, acc.Modern, acc.Dict, ps, acc.OCRPatterns,
              acc.Distance, acc.Weight⟩
      else if eqCI k (("OCRPatterns").data) then
        match decPatterns v with
        | none => none
        | some ps =>
          decCandidateFields rest
            ⟨acc.Suggestion, acc.Modern, acc.Dict, acc.HistPatterns, ps,
              acc.Distance, acc.Weight⟩
      else if eqCI k (("Distance").data) then
        match decIntField v acc.Distance with
        | none => none
        | some n =>
          decCandidateFields rest
            ⟨acc.Suggestion, acc.Modern, acc.Dict, acc.HistPatterns,
              acc.OCRPatterns, n, acc.Weight⟩
      else if eqCI k (("Weight").data) then
        match decGoFField v acc.Weight with
        | none => none
        | some w =>
          decCandidateFields rest
            ⟨acc.Suggestion, acc.Modern, acc.Dict, acc.HistPatterns,
              acc.OCRPatterns, acc.Distance, w⟩
      else decCandidateFields rest acc

/-- A JSON value landing in a `[]Candidate` field. -/
def decCandidates (v : Jval) : Option (List Candidate) :=
  match v with
  | .jnull => some []
  | .jarr vs => decCandidateList vs
  | _ => none
where
  decCandidateList : List Jval → Option (List Candidate)
    | [] => some []
    | v :: rest =>
      match decCandidate v, decCandidateList rest with
      | some c, some cs => some (c :: cs)
      | _, _ => none

/-- The zero `Interpretation`. -/
def zeroInterp : Interpretation := ⟨[], 0, []⟩

/-- Decode a JSON value into an `Interpretation`. -/
def decInterp : Jval → Option Interpretation
  | .jnull => some zeroInterp
  | .jobj fs => decInterpFields fs zeroInterp
  | _ => none
where
  decInterpFields : List (List Char × Jval) → Interpretation → Option Interpretation
    | [], acc => some acc
    | (k, v) :: rest, acc =>
      if eqCI k (("OCR").data) then
        match decStrField v acc.OCR with
        | none => none
        | some s => decInterpFields rest ⟨s, acc.N, acc.Candidates⟩
      else if eqCI k (("N").data) then
        match decIntField v acc.N with
        | none => none
        | some n => decInterpFields rest ⟨acc.OCR, n, acc.Candidates⟩
      else if eqCI k (("Candidates").data) then
        match decCandidates v with
        | none => none
        | some cs => decInterpFields rest ⟨acc.OCR, acc.N, cs⟩
      else decInterpFields rest acc

/-- Map assignment for the decoded profile (later duplicate keys
overwrite). -/
def mapSetI :
    List (List Char × Interpretation) → List Char → Interpretation →
      List (List Char × Interpretation)
  | [], k, v => [(k, v)]
  | (k2, v2) :: rest, k, v =>
    if k2 = k then (k, v) :: rest else (k2, v2) :: mapSetI rest k v

/-- Decode a JSON value into a `Profile` (`map[string]Interpretation`):
`null` leaves the nil map, an object decodes key by key. -/
def decProfileVal : Jval → Option Profile
  | .jnull => some []
  | .jobj fs => decProfileFields fs []
  | _ => none
where
  decProfileFields : List (List Char × Jval) → Profile → Option Profile
    | [], acc => some acc
    | (k, v) :: rest, acc =>
      match decInterp v with
      | none => none
      | some it => decProfileFields rest (mapSetI acc k it)

/-- The reader function `Run` installs:
`json.NewDecoder(r).Decode(&profile)`.  `Decode` reads one JSON value
(`io.EOF`, a non-nil error, if the input holds none) and unmarshals it
into the nil `Profile`; input past the first value is left unread. -/
def decodeProfile (input : List Char) : Option Profile :=
  match parseVal (input.length + 1) input with
  | none => none
  | some (v, _) => decProfileVal v

/-- C5 counterexample: the claim says decoding succeeds on empty input,
but `json.Decoder.Decode` finds no JSON value there and returns
`io.EOF`, a non-nil error, which `run` wraps into its own non-nil
error. -/
theorem c5_counterexample : decodeProfile [] = none := by rfl

/-- C5 (amended): `decodeProfile` yields a `Profile` with zero
interpretations on the JSON document `null` and on the empty object
`\x7b\x7d`, but errors on empty input, where `Decode` returns
`io.EOF`. -/
theorem c5_amended :
    decodeProfile (("null").data) = some [] ∧
    decodeProfile (("\x7b\x7d").data) = some [] ∧
    decodeProfile [] = none := by
  exact ⟨rfl, rfl, rfl⟩
